import Mathlib

/-!
Verification of the PatraSaar RAG core against its source.

Strings are modeled as `List Char` (`Str`); JavaScript string operations
(trim, split, regex-like scans) are translated char-by-char from the
TypeScript source in `src/src/lib/documents/processor.ts`,
`src/src/lib/rag/pipeline.ts` and `src/src/lib/embeddings/index.ts`.
`uuidv4()` is modeled as the constant id `0` (no verified property depends
on chunk ids). JavaScript numbers used as character offsets are modeled as
`Int` (they can go negative in the sliding-window path); sizes and counts
are `Nat`; similarity scores and embedding entries are `ℚ` (exact-arithmetic
idealization of JS floats).
-/

abbrev Str := List Char

/-- JS `\s` whitespace class (the code points JavaScript regexes treat as
whitespace). -/
def isJsWs (c : Char) : Bool :=
  c = ' ' || c = '\t' || c = '\n' || (c = Char.ofNat 11) || (c = Char.ofNat 12) ||
  c = '\r' || (c = Char.ofNat 160) || (c = Char.ofNat 0x1680) ||
  (0x2000 ≤ c.toNat && c.toNat ≤ 0x200a) || (c = Char.ofNat 0x2028) ||
  (c = Char.ofNat 0x2029) || (c = Char.ofNat 0x202f) || (c = Char.ofNat 0x205f) ||
  (c = Char.ofNat 0x3000) || (c = Char.ofNat 0xfeff)

/-- JS `String.prototype.trim`. -/
def jsTrim (s : Str) : Str :=
  ((s.dropWhile isJsWs).reverse.dropWhile isJsWs).reverse

/-- JS `s.slice(a, b)` for nonnegative indices. -/
def jsSlice (s : Str) (a b : Nat) : Str := (s.drop a).take (b - a)

/-- `estimateTokens`: `Math.ceil(text.length / 4)` (processor.ts line 377). -/
def estimateTokens (s : Str) : Nat := (s.length + 3) / 4

/-- `maxChunkSize = 500` (processor.ts line 51). -/
def maxChunkSize : Nat := 500

/-- `chunkOverlap = 50` (processor.ts line 52). -/
def chunkOverlap : Nat := 50

/-! ### Sentence splitting (processor.ts `splitIntoSentences`)

The source first rewrites `/([.!?])\s+/g` to `$1|||` (punctuation kept, the
whitespace run replaced by a `|||` marker), then applies
`/\|\|\|([A-Z])/g → |||$1` — which is an identity rewrite (it re-emits
exactly the matched text), modeled as such — then splits on `"|||"`, trims
each piece and drops empties. -/

/-- Characters the sentence splitter treats as sentence punctuation. -/
def isSentPunct (c : Char) : Bool := c = '.' || c = '!' || c = '?'

/-- One step of the `([.!?])\s+ → $1|||` rewrite. State: output (reversed),
"previous char was sentence punctuation", "inside a whitespace run that was
just replaced". -/
def ismStep : Str × Bool × Bool → Char → Str × Bool × Bool :=
  fun st c =>
    let out := st.1
    let afterPunct := st.2.1
    let inRun := st.2.2
    if isJsWs c then
      if afterPunct then ('|' :: '|' :: '|' :: out, false, true)
      else if inRun then (out, false, true)
      else (c :: out, false, false)
    else (c :: out, isSentPunct c, false)

/-- The `/([.!?])\s+/g → $1|||` global replacement. -/
def insertSentenceMarkers (s : Str) : Str :=
  (s.foldl ismStep ([], false, false)).1.reverse

/-- Prepend a character to the first segment of a split result. -/
def spCons (c : Char) : List Str → List Str
  | [] => [[c]]
  | seg :: segs => (c :: seg) :: segs

/-- JS `s.split("|||")` (leftmost, non-overlapping). -/
def splitPipe3 : Str → List Str
  | [] => [[]]
  | '|' :: '|' :: '|' :: rest2 => [] :: splitPipe3 rest2
  | c :: rest => spCons c (splitPipe3 rest)

/-- `splitIntoSentences` (processor.ts lines 361-369). -/
def splitIntoSentences (text : Str) : List Str :=
  (((splitPipe3 (insertSentenceMarkers text)).map jsTrim).filter
    (fun s => !s.isEmpty))

/-! ### Overlap text (processor.ts `getOverlapText`) -/

/-- One step of JS `s.split(/\s+/)`: state is (finished segments, current
segment reversed, previous char was whitespace). A leading or trailing
whitespace run produces an empty boundary segment, as in JS. -/
def jsswStep : List Str × Str × Bool → Char → List Str × Str × Bool :=
  fun st c =>
    let acc := st.1
    let cur := st.2.1
    let prevWs := st.2.2
    if isJsWs c then
      if prevWs then (acc, cur, true) else (acc ++ [cur.reverse], [], true)
    else (acc, c :: cur, false)

/-- JS `s.split(/\s+/)`. -/
def jsSplitWsFull (s : Str) : List Str :=
  let st := s.foldl jsswStep ([], [], false)
  st.1 ++ [st.2.1.reverse]

/-- `getOverlapText` (processor.ts lines 371-375): last `chunkOverlap` words
(`slice(Math.max(0, words.length - 50))`), joined by spaces, plus a trailing
space. -/
def getOverlapText (text : Str) : Str :=
  let words := jsSplitWsFull text
  (List.intercalate [' '] (words.drop (words.length - chunkOverlap))) ++ [' ']

/-! ### Section heading patterns (processor.ts `SECTION_PATTERNS`)

All eight patterns are `^`-anchored; `identifySections` applies them to one
line at a time (lines contain no newline), so under the `m` flag each
pattern can only match a prefix of the line. Patterns 1-5 carry the `i`
flag (ASCII case-insensitive here, which is what the alphabetic pattern
literals exercise). A matcher returns `none` (no match) or `some cap` where
`cap` is the optional first capture group (`match[1]`). -/

def toLowerAscii (c : Char) : Char :=
  if 'A' ≤ c && c ≤ 'Z' then Char.ofNat (c.toNat + 32) else c

def isAsciiDigit (c : Char) : Bool := '0' ≤ c && c ≤ '9'

def isAsciiLetter (c : Char) : Bool :=
  ('a' ≤ c && c ≤ 'z') || ('A' ≤ c && c ≤ 'Z')

def isWordChar (c : Char) : Bool := isAsciiLetter c || isAsciiDigit c || c = '_'

/-- Strip a literal pattern prefix, ASCII case-insensitively (`i` flag). -/
def stripCI : Str → Str → Option Str
  | [], s => some s
  | _ :: _, [] => none
  | p :: ps, c :: cs => if toLowerAscii c = toLowerAscii p then stripCI ps cs else none

/-- `\s+` (greedy, followed in every pattern by a non-whitespace class). -/
def ws1 : Str → Option Str
  | [] => none
  | c :: cs => if isJsWs c then some (cs.dropWhile isJsWs) else none

/-- `\d+` (greedy): leading digit run (nonempty) and the rest. -/
def digits1 (s : Str) : Option (Str × Str) :=
  let ds := s.takeWhile isAsciiDigit
  if ds.isEmpty then none else some (ds, s.dropWhile isAsciiDigit)

def toUpperAscii (c : Char) : Char :=
  if 'a' ≤ c && c ≤ 'z' then Char.ofNat (c.toNat - 32) else c

def isRomanUpper (c : Char) : Bool :=
  c = 'I' || c = 'V' || c = 'X' || c = 'L' || c = 'C' || c = 'D' || c = 'M'

/-- `[IVXLCDM]` under the `i` flag. -/
def isRomanCI (c : Char) : Bool := isRomanUpper (toUpperAscii c)

/-- `/^Section\s+(\d+[A-Za-z]?)/im` -/
def matchSectionPat (line : Str) : Option (Option Str) := do
  let r1 ← stripCI "section".data line
  let r2 ← ws1 r1
  let (ds, r3) ← digits1 r2
  match r3 with
  | c :: _ => if isAsciiLetter c then pure (some (ds ++ [c])) else pure (some ds)
  | [] => pure (some ds)

/-- `/^Article\s+(\d+)/im` -/
def matchArticlePat (line : Str) : Option (Option Str) := do
  let r1 ← stripCI "article".data line
  let r2 ← ws1 r1
  let (ds, _) ← digits1 r2
  pure (some ds)

/-- `/^Clause\s+(\d+(?:\.\d+)?)/im` -/
def matchClausePat (line : Str) : Option (Option Str) := do
  let r1 ← stripCI "clause".data line
  let r2 ← ws1 r1
  let (ds, r3) ← digits1 r2
  match r3 with
  | '.' :: r4 =>
    match digits1 r4 with
    | some (ds2, _) => pure (some (ds ++ '.' :: ds2))
    | none => pure (some ds)
  | _ => pure (some ds)

/-- `/^Rule\s+(\d+)/im` -/
def matchRulePat (line : Str) : Option (Option Str) := do
  let r1 ← stripCI "rule".data line
  let r2 ← ws1 r1
  let (ds, _) ← digits1 r2
  pure (some ds)

/-- `/^Order\s+([IVXLCDM]+|\d+)/im`: the roman alternative is tried first;
with the `i` flag it matches lower- and uppercase roman letters, and the
capture is the original text. -/
def matchOrderPat (line : Str) : Option (Option Str) := do
  let r1 ← stripCI "order".data line
  let r2 ← ws1 r1
  let roman := r2.takeWhile isRomanCI
  if !roman.isEmpty then pure (some roman)
  else do
    let (ds, _) ← digits1 r2
    pure (some ds)

/-- `/^(?:^\d+)\.\s+([A-Z][^.]+)/m` -/
def matchNumberedPat (line : Str) : Option (Option Str) := do
  let (_, r1) ← digits1 line
  match r1 with
  | '.' :: r2 => do
    let r3 ← ws1 r2
    match r3 with
    | c :: r4 =>
      if 'A' ≤ c && c ≤ 'Z' then
        let run := r4.takeWhile (fun d => d ≠ '.')
        if run.isEmpty then none else pure (some (c :: run))
      else none
    | [] => none
  | _ => none

/-- `/^(?:^[IVXLCDM]+)\.\s+/m` (no capture group, so `match[1]` is
undefined). -/
def matchRomanPat (line : Str) : Option (Option Str) := do
  let run := line.takeWhile isRomanUpper
  if run.isEmpty then none
  else
    match line.drop run.length with
    | '.' :: r2 => do
      let _ ← ws1 r2
      pure none
    | _ => none

def isIvx (c : Char) : Bool := c = 'i' || c = 'v' || c = 'x'

/-- The second alternative `\([ivx]+\)` applied after the opening `(`. -/
def parenIvxAlt (rest : Str) : Option (Option Str) :=
  let run := rest.takeWhile isIvx
  if run.isEmpty then none
  else
    match rest.drop run.length with
    | ')' :: _ => some none
    | _ => none

/-- `/^(?:\([a-z]\)|\([ivx]+\))/m` (no capture group; the single-letter
alternative is tried first). -/
def matchParenPat (line : Str) : Option (Option Str) :=
  match line with
  | '(' :: rest =>
    (match rest with
     | c :: ')' :: _ =>
       if 'a' ≤ c && c ≤ 'z' then some none else parenIvxAlt rest
     | _ => parenIvxAlt rest)
  | _ => none

/-- The ordered pattern list; `identifySections` stops at the first match
per line (`break`). -/
def firstPatternMatch (line : Str) : Option (Option Str) :=
  (matchSectionPat line) <|> (matchArticlePat line) <|> (matchClausePat line) <|>
  (matchRulePat line) <|> (matchOrderPat line) <|> (matchNumberedPat line) <|>
  (matchRomanPat line) <|> (matchParenPat line)

/-! ### identifySections (processor.ts lines 212-257) -/

structure SectionInfo where
  start : Nat
  /-- `end` in the source. -/
  stop : Nat
  title : Option Str
  clauseNumber : Option Str
deriving Repr, DecidableEq

/-- JS `text.split("\n")`. -/
def splitNl : Str → List Str
  | [] => [[]]
  | c :: rest =>
    if c = '\n' then [] :: splitNl rest else spCons c (splitNl rest)

/-- `sections[sections.length - 1].end = currentPos`. -/
def setLastStop : List SectionInfo → Nat → List SectionInfo
  | [], _ => []
  | [s], p => [{ s with stop := p }]
  | s :: rest, p => s :: setLastStop rest p

def identifyLoop (textLen : Nat) : List Str → Nat → List SectionInfo → List SectionInfo
  | [], _, acc => acc
  | line :: rest, currentPos, acc =>
    let acc' :=
      match firstPatternMatch line with
      | some cap =>
        (setLastStop acc currentPos) ++
          [⟨currentPos, textLen, some (jsSlice (jsTrim line) 0 100), cap⟩]
      | none => acc
    identifyLoop textLen rest (currentPos + line.length + 1) acc'

/-- `identifySections` (processor.ts lines 212-257). -/
def identifySections (text : Str) : List SectionInfo :=
  identifyLoop text.length (splitNl text) 0 []

/-! ### Chunking (processor.ts lines 170-359) -/

structure ChunkMetadata where
  /-- `section` in the source. -/
  sectionLabel : Option Str
  clauseNumber : Option Str
  pageNumber : Option Nat
  startChar : Int
  endChar : Int
deriving Repr, DecidableEq

structure DocumentChunk where
  /-- `uuidv4()` modeled as `0`. -/
  id : Nat
  content : Str
  chunkIndex : Nat
  metadata : ChunkMetadata
deriving Repr, DecidableEq

/-- The `splitLargeSection` sentence loop (processor.ts lines 259-312).
`chunkIndex` is 0 on every emitted chunk ("Will be set by caller"). -/
def slsLoop (title clause : Option Str) (secStart : Int) (secTextLen : Nat) :
    List Str → Str → Int → List DocumentChunk → List DocumentChunk
  | [], cc, chunkStart, acc =>
    if (jsTrim cc).isEmpty then acc
    else acc ++ [⟨0, jsTrim cc, 0, ⟨title, clause, none, chunkStart, secStart + secTextLen⟩⟩]
  | s :: rest, cc, chunkStart, acc =>
    let potential := cc ++ s ++ [' ']
    if maxChunkSize < estimateTokens potential then
      let acc2 :=
        if (jsTrim cc).isEmpty then acc
        else acc ++ [⟨0, jsTrim cc, 0, ⟨title, clause, none, chunkStart, chunkStart + cc.length⟩⟩]
      let overlap := getOverlapText cc
      let cc2 := overlap ++ s ++ [' ']
      slsLoop title clause secStart secTextLen rest cc2
        (chunkStart + ((cc2.length : Int) - overlap.length - s.length - 1)) acc2
    else
      slsLoop title clause secStart secTextLen rest potential chunkStart acc

/-- `splitLargeSection` (processor.ts lines 259-312). -/
def splitLargeSection (sectionText : Str) (title clause : Option Str)
    (secStart : Nat) : List DocumentChunk :=
  slsLoop title clause secStart sectionText.length
    (splitIntoSentences sectionText) [] secStart []

/-- The `slidingWindowChunk` sentence loop (processor.ts lines 314-359). -/
def swcLoop (textLen : Nat) :
    List Str → Str → Int → Int → List DocumentChunk → List DocumentChunk
  | [], cc, chunkStart, _, acc =>
    if (jsTrim cc).isEmpty then acc
    else acc ++ [⟨0, jsTrim cc, acc.length, ⟨none, none, none, chunkStart, (textLen : Int)⟩⟩]
  | s :: rest, cc, chunkStart, currentStart, acc =>
    let potential := cc ++ s ++ [' ']
    if maxChunkSize < estimateTokens potential then
      let acc2 :=
        if (jsTrim cc).isEmpty then acc
        else acc ++ [⟨0, jsTrim cc, acc.length, ⟨none, none, none, chunkStart, chunkStart + cc.length⟩⟩]
      let overlap := getOverlapText cc
      swcLoop textLen rest (overlap ++ s ++ [' '])
        (currentStart - (overlap.length : Int)) (currentStart + s.length + 1) acc2
    else
      swcLoop textLen rest potential chunkStart (currentStart + s.length + 1) acc

/-- `slidingWindowChunk` (processor.ts lines 314-359). -/
def slidingWindowChunk (text : Str) : List DocumentChunk :=
  swcLoop text.length (splitIntoSentences text) [] 0 0 []

/-- The `for (const subChunk of subChunks)` push loop in `chunkDocument`
(lines 200-205): each sub-chunk is pushed with `chunkIndex := chunks.length`. -/
def pushAll (acc : List DocumentChunk) : List DocumentChunk → List DocumentChunk
  | [] => acc
  | c :: rest => pushAll (acc ++ [{ c with chunkIndex := acc.length }]) rest

/-- The per-section loop in `chunkDocument` (processor.ts lines 180-207). -/
def sectionLoop (text : Str) : List SectionInfo → List DocumentChunk → List DocumentChunk
  | [], acc => acc
  | sec :: rest, acc =>
    let sectionText := jsSlice text sec.start sec.stop
    let acc2 :=
      if estimateTokens sectionText ≤ maxChunkSize then
        acc ++ [⟨0, jsTrim sectionText, acc.length,
          ⟨sec.title, sec.clauseNumber, none, (sec.start : Int), (sec.stop : Int)⟩⟩]
      else
        pushAll acc (splitLargeSection sectionText sec.title sec.clauseNumber sec.start)
    sectionLoop text rest acc2

/-- `chunkDocument` (processor.ts lines 170-210). -/
def chunkDocument (text : Str) : List DocumentChunk :=
  let sections := identifySections text
  if sections.isEmpty then slidingWindowChunk text
  else sectionLoop text sections []

/-! ### Concrete inputs used by counterexamples and witnesses -/

/-- The input text of the spec scenario behind claim C1. -/
def c1text : Str :=
  "Section 1: Payment is due within 30 days. Section 2: Termination requires 30 days notice.".data

/-- A 1995-character word. -/
def aRun : Str := List.replicate 1995 'a'

/-- Input on which the sliding-window chunker emits a chunk whose token
estimate (999) exceeds `maxChunkSize`, although neither of its two
sentences (estimates 500 and 499) exceeds it: the second chunk is the
overlap text carried over from the first chunk followed by the second
sentence. -/
def c2text : Str := aRun ++ '.' :: ' ' :: aRun

/-- Default chunk used as the out-of-range fallback of `List.getD`. -/
def dummyChunk : DocumentChunk := ⟨0, [], 0, ⟨none, none, none, 0, 0⟩⟩

/-- A chunk's content either fits the token budget or is the trimmed
concatenation of a retained overlap text and a single sentence of some
slice of the input (the form produced when `splitLargeSection` or
`slidingWindowChunk` carries an overlap into a fresh chunk). -/
def chunkSizeOk (text : Str) (c : DocumentChunk) : Prop :=
  estimateTokens c.content ≤ maxChunkSize ∨
  ∃ prev s a b, s ∈ splitIntoSentences (jsSlice text a b) ∧
    c.content = jsTrim (getOverlapText prev ++ s ++ [' '])

/-! ### normalizeText (processor.ts lines 383-393) -/

/-- `\b` context check for the character before a match (regex word chars
are `[A-Za-z0-9_]`). -/
def prevBoundary : Option Char → Bool
  | none => true
  | some p => !isWordChar p

/-- `\b` context check for the character after a match. -/
def nextBoundary : Str → Bool
  | [] => true
  | c :: _ => !isWordChar c

/-- `.replace(/\bl\b/g, "I")` (processor.ts line 386): a lone `l` between
word boundaries becomes `I`. The scan carries the previous original
character (boundaries are judged on the original text). -/
def fixOcrL (prev : Option Char) : Str → Str
  | [] => []
  | c :: rest =>
    (if c = 'l' then
      if prevBoundary prev && nextBoundary rest then 'I' else 'l'
     else c) :: fixOcrL (some c) rest

/-- `.replace(/\s+/g, " ")` (also used by `extractTextFromPDFBuffer`):
every whitespace run collapses to a single space. The flag records
"previous character was whitespace". -/
def collapseWs (prevWs : Bool) : Str → Str
  | [] => []
  | c :: rest =>
    if isJsWs c then
      if prevWs then collapseWs true rest else ' ' :: collapseWs true rest
    else c :: collapseWs false rest

/-- `.replace(/[““””]/g, '"')`: the two curly double quotes U+201C/U+201D. -/
def normQuote (c : Char) : Char :=
  if c = Char.ofNat 0x201c || c = Char.ofNat 0x201d then '"' else c

/-- `.replace(/[‘’'']/g, "'")`: the two curly single quotes U+2018/U+2019. -/
def normApos (c : Char) : Char :=
  if c = Char.ofNat 0x2018 || c = Char.ofNat 0x2019 then '\'' else c

/-- `.replace(/–/g, "-")`: en dash U+2013. -/
def normDash (c : Char) : Char :=
  if c = Char.ofNat 0x2013 then '-' else c

/-- `.replace(/…/g, "...")`: horizontal ellipsis U+2026 expands to three
dots. -/
def expandEllipsis (s : Str) : Str :=
  s.flatMap fun c => if c = Char.ofNat 0x2026 then ['.', '.', '.'] else [c]

/-- `normalizeText` (processor.ts lines 383-393). -/
def normalizeText (s : Str) : Str :=
  jsTrim (expandEllipsis
    ((((collapseWs false (fixOcrL none s)).map normQuote).map normApos).map normDash))

/-! ### Text extraction (processor.ts lines 55-167)

The external parsers (`pdf-parse`, `mammoth`) are modeled as parameters of
type `Except`: `.ok` is a successful parse, `.error` a thrown parse error.
The returned `Bool` instruments which branch ran: it is `true` exactly when
the degraded PDF-buffer fallback was attempted. -/

structure ProcessedDoc where
  text : Str
  pages : Nat
deriving Repr, DecidableEq

/-- A character accepted by the fallback filter `/^[\x20-\x7E\s]+$/`. -/
def isPrintableOrWs (c : Char) : Bool :=
  (0x20 ≤ c.toNat && c.toNat ≤ 0x7e) || isJsWs c

/-- The `/\(([^)]+)\)/g` scan of `extractTextFromPDFBuffer` (lines 139-147):
leftmost non-overlapping parenthesized runs with nonempty body and no `)` in
the body. `fuel` bounds the recursion by the input length; every step
consumes at least one character, so `fuel = s.length` is never exhausted. -/
def pdfScanF : Nat → Str → List Str
  | 0, _ => []
  | _ + 1, [] => []
  | fuel + 1, '(' :: rest =>
    let inner := rest.takeWhile (fun c => c ≠ ')')
    if inner.isEmpty then pdfScanF fuel rest
    else
      match rest.drop inner.length with
      | ')' :: rest2 => inner :: pdfScanF fuel rest2
      | _ => []
  | fuel + 1, _ :: rest => pdfScanF fuel rest

/-- `extractTextFromPDFBuffer` (processor.ts lines 134-150): keep matches
that are all printable-or-whitespace and longer than 2 characters, join
with spaces, collapse whitespace, trim. -/
def extractTextFromPDFBuffer (content : Str) : Str :=
  let textMatches := (pdfScanF content.length content).filter
    (fun m => m.all isPrintableOrWs && 2 < m.length)
  jsTrim (collapseWs false (List.intercalate [' '] textMatches))

def pdfFallbackErr : Str :=
  "Failed to extract text from PDF. Try uploading a TXT or DOCX file instead.".data

def docxErr : Str := "Failed to extract text from DOCX".data

/-- `extractFromPDF` (processor.ts lines 79-131): on primary-parser failure
the buffer fallback runs (flag `true`); it succeeds only when the recovered
text is longer than 50 characters (`textContent && textContent.length > 50`;
the pure fallback cannot itself throw, so the inner `catch` is dead in the
model). -/
def extractFromPDF (primary : Except Str ProcessedDoc) (buffer : Str) :
    Except Str ProcessedDoc × Bool :=
  match primary with
  | .ok d => (.ok d, false)
  | .error _ =>
    let textContent := extractTextFromPDFBuffer buffer
    if 50 < textContent.length then (.ok ⟨textContent, 1⟩, true)
    else (.error pdfFallbackErr, true)

/-- `extractFromDOCX` (processor.ts lines 152-167): no fallback, a primary
failure rethrows a fixed message (flag `false`: the buffer fallback is never
attempted). -/
def extractFromDOCX (primary : Except Str Str) : Except Str ProcessedDoc × Bool :=
  match primary with
  | .ok value => (.ok ⟨value, 1⟩, false)
  | .error _ => (.error docxErr, false)

/-- `extractText` (processor.ts lines 55-77): dispatch on the lowercased
file type (`toLowerCase` modeled ASCII-wise, which the compared literals
exercise). `pdfParse` / `docxParse` are the primary-parser outcomes; the
`txt` branch returns the buffer (metadata title dropped: no claim touches
it). -/
def extractText (fileType : Str) (buffer filename : Str)
    (pdfParse : Except Str ProcessedDoc) (docxParse : Except Str Str) :
    Except Str ProcessedDoc × Bool :=
  let ft := fileType.map toLowerAscii
  if ft = "pdf".data ∨ ft = "application/pdf".data then
    extractFromPDF pdfParse buffer
  else if ft = "docx".data ∨
      ft = "application/vnd.openxmlformats-officedocument.wordprocessingml.document".data then
    extractFromDOCX docxParse
  else if ft = "txt".data ∨ ft = "text/plain".data then
    (.ok ⟨buffer, 1⟩, false)
  else
    (.error ("Unsupported file type: ".data ++ fileType), false)

/-! ### Persisted state (supabase tables touched by pipeline.ts)

The metadata store is modeled by the rows the pipeline writes: document
statuses (updated by id), counts of inserted chunk rows and upserted
vectors, and the `queries` / `usage_tracking` rows. -/

structure QueryRow where
  userId : Str
  documentId : Option Str
  queryText : Str
  responseText : Str
  confidence : ℚ
  tokensUsed : Nat
deriving Repr, DecidableEq

structure UsageRow where
  userId : Str
  actionType : Str
deriving Repr, DecidableEq

structure DbState where
  /-- `documents.status`, keyed by document id. -/
  docStatus : List (Str × Str)
  /-- rows inserted into `document_chunks`. -/
  chunkRows : Nat
  /-- points upserted into the vector store. -/
  vectorPoints : Nat
  /-- rows inserted into `queries`. -/
  queryRows : List QueryRow
  /-- rows inserted into `usage_tracking`. -/
  usageRows : List UsageRow
deriving Repr, DecidableEq

/-- `.from("documents").update({ status }).eq("id", id)`: every row whose id
matches is updated; a missing id updates nothing. -/
def setDocStatus (db : DbState) (id st : Str) : DbState :=
  { db with docStatus := db.docStatus.map fun p => if p.1 = id then (p.1, st) else p }

def getDocStatus (db : DbState) (id : Str) : Option Str :=
  (db.docStatus.find? fun p => p.1 = id).map Prod.snd

/-! ### ingestDocument (pipeline.ts lines 32-153) -/

structure IngestionResult where
  documentId : Str
  chunksCreated : Nat
  status : Str
  error : Option Str
deriving Repr, DecidableEq

/-- `ingestDocument` (pipeline.ts lines 32-153). `extraction` is the
outcome of `extractText` (its thrown errors carried as `.error`);
`llmSummary` is the summarizer response content (the summarizer is
external). Embeddings are pure, so after a successful extraction the only
throw site is the zero-chunks check (line 63); the `catch` turns any throw
into the `"failed"` status update and result. -/
def ingestDocument (docId userId : Str) (extraction : Except Str Str)
    (llmSummary : Str) (db0 : DbState) : IngestionResult × DbState :=
  let db1 := setDocStatus db0 docId "processing".data
  match extraction with
  | .error e => (⟨docId, 0, "failed".data, some e⟩, setDocStatus db1 docId "failed".data)
  | .ok rawText =>
    let normalizedText := normalizeText rawText
    let chunks := chunkDocument normalizedText
    if chunks.isEmpty then
      (⟨docId, 0, "failed".data, some "No text could be extracted from document".data⟩,
        setDocStatus db1 docId "failed".data)
    else
      let db2 := { db1 with chunkRows := db1.chunkRows + chunks.length }
      let db3 := { db2 with vectorPoints := db2.vectorPoints + chunks.length }
      let db4 := setDocStatus db3 docId "completed".data
      let db5 := { db4 with usageRows := db4.usageRows ++ [(⟨userId, "document_upload".data⟩ : UsageRow)] }
      (⟨docId, chunks.length, "completed".data, none⟩, db5)

/-! ### query (pipeline.ts lines 156-271) -/

structure SearchMeta where
  documentId : Str
  userId : Str
  chunkIndex : Nat
  documentType : Option Str
  /-- `section` in the source. -/
  sectionLabel : Option Str
  pageNumber : Option Nat
  isCorpus : Option Bool
deriving Repr, DecidableEq

structure SearchResult where
  id : Str
  content : Str
  score : ℚ
  metadata : SearchMeta
deriving Repr, DecidableEq

structure Citation where
  source : Str
  /-- `section` in the source. -/
  sectionLabel : Option Str
  content : Str
  relevanceScore : ℚ
deriving Repr, DecidableEq

structure LLMResponse where
  content : Str
  tokensUsed : Nat
deriving Repr, DecidableEq

structure RAGQueryResult where
  answer : Str
  citations : List Citation
  confidence : ℚ
  tokensUsed : Nat
  /-- `Date.now()` differences are modeled as 0. -/
  processingTimeMs : Nat
deriving Repr, DecidableEq

/-- One entry of `buildContext` (pipeline.ts lines 253-262). -/
def buildContextEntry (i : Nat) (r : SearchResult) : Str :=
  "[Source ".data ++ (Nat.repr (i + 1)).data ++
    (match r.metadata.sectionLabel with
     | some s => ' ' :: '(' :: (s ++ [')'])
     | none => []) ++
    "]:\n".data ++ r.content

/-- `buildContext` (pipeline.ts lines 253-262). -/
def buildContext (results : List SearchResult) : Str :=
  List.intercalate "\n\n---\n\n".data
    (results.enum.map fun p => buildContextEntry p.1 p.2)

/-- The per-result citation of `extractCitations` (pipeline.ts lines
264-271). -/
def citeOf (r : SearchResult) : Citation :=
  { source := r.metadata.documentId
    sectionLabel := r.metadata.sectionLabel
    content := r.content.take 200 ++
      (if 200 < r.content.length then "...".data else [])
    relevanceScore := r.score }

/-- `extractCitations` (pipeline.ts lines 264-271). -/
def extractCitations (results : List SearchResult) : List Citation :=
  results.map citeOf

/-- The fixed zero-result answer (pipeline.ts lines 179-180). -/
def noInfoAnswer : Str :=
  "I couldn't find relevant information to answer your question. Please try rephrasing or ensure you have uploaded relevant documents.\n\n⚠️ This is for informational purposes only, not legal advice.".data

/-- `query` (pipeline.ts lines 156-251). `searchResults` is the vector
search outcome, `llmResp` the generation-provider response to the built
context (the provider is external). The returned `Bool` instruments whether
the generation provider was called. The document-title lookup (lines
192-202) only shapes the provider prompt, which `llmResp` subsumes. -/
def query (userId queryText : Str) (documentId : Option Str)
    (searchResults : List SearchResult) (llmResp : LLMResponse)
    (db : DbState) : RAGQueryResult × DbState × Bool :=
  if searchResults.isEmpty then
    (⟨noInfoAnswer, [], 0, 0, 0⟩, db, false)
  else
    let citations := extractCitations searchResults
    let avgScore := ((searchResults.map fun r => r.score).sum) / (searchResults.length : ℚ)
    let confidence := min avgScore 1
    let db1 := { db with queryRows := db.queryRows ++
      [(⟨userId, documentId, queryText, llmResp.content, confidence, llmResp.tokensUsed⟩ : QueryRow)] }
    let db2 := { db1 with usageRows := db1.usageRows ++ [(⟨userId, "query".data⟩ : UsageRow)] }
    (⟨llmResp.content, citations, confidence, llmResp.tokensUsed, 0⟩, db2, true)

/-- Decidable "the pattern occurs as a prefix". -/
def isPrefixAt : Str → Str → Bool
  | [], _ => true
  | _ :: _, [] => false
  | p :: ps, c :: cs => p = c && isPrefixAt ps cs

/-- Decidable "the pattern occurs as a contiguous segment". -/
def containsSeg (pat : Str) : Str → Bool
  | [] => pat.isEmpty
  | c :: rest => isPrefixAt pat (c :: rest) || containsSeg pat rest

/-! ### hashEmbedding (embeddings/index.ts lines 26-82)

`stringHash` is djb2 over UTF-16 code units with JS int32 coercions: each
step is `h ← ((33*h) mod 2^32) xor code`, and the final value is read as a
signed 32-bit integer (`(hash << 5) + hash` is exact in doubles, and `^`
coerces to int32). Embedding entries are exact rationals. -/

def embDimension : Nat := 384

/-- `stringHash` (embeddings/index.ts lines 76-82), unsigned 32-bit state. -/
def djb2 (s : Str) : Nat :=
  s.foldl (fun h c => ((33 * h) % 4294967296) ^^^ c.toNat) 5381

/-- Read an unsigned 32-bit value as a signed int32 (the value JS sees). -/
def toInt32 (n : Nat) : Int :=
  if n < 2147483648 then (n : Int) else (n : Int) - 4294967296

/-- `Math.abs(hash) % EMBEDDING_DIMENSION`. -/
def hashIdx (n : Nat) : Nat := (toInt32 n).natAbs % embDimension

/-- `hash > 0 ? 1 : -1`. -/
def hashSign (n : Nat) : ℚ := if 0 < toInt32 n then 1 else -1

/-- `text.toLowerCase().replace(/[^a-z0-9\s]/g, "")` (line 28); `toLowerCase`
is modeled ASCII-wise (a non-ASCII cased letter lowercases to a non-ASCII
letter, which this filter drops either way). -/
def embNormalize (t : Str) : Str :=
  (t.map toLowerAscii).filter fun c =>
    ('a' ≤ c && c ≤ 'z') || isAsciiDigit c || isJsWs c

/-- `normalized.split(/\s+/).filter((w) => w.length > 0)` (line 29). -/
def embWords (t : Str) : List Str :=
  (jsSplitWsFull (embNormalize t)).filter fun w => !w.isEmpty

/-- Insertion-order keys of the `Map` word-frequency build (lines 36-39). -/
def uniqueInOrder (ws : List Str) : List Str :=
  ws.foldl (fun acc w => if w ∈ acc then acc else acc ++ [w]) []

def countOcc (ws : List Str) (w : Str) : Nat :=
  (ws.filter fun x => x = w).length

/-- `embedding[idx] += x`. -/
def bumpAt (v : List ℚ) (i : Nat) (x : ℚ) : List ℚ :=
  v.set i (v.getD i 0 + x)

/-- The `hashEmbedding` accumulator just before the magnitude normalization
(embeddings/index.ts lines 27-60): three signed TF-weighted hash hits per
unique word, then `0.5 / words.length` per adjacent-bigram hit. When
`words` is empty the zero vector is returned directly (line 31). Since the
code divides by the magnitude only when it is positive, this accumulator IS
the returned embedding whenever its magnitude is zero. -/
def hashEmbeddingAcc (text : Str) : List ℚ :=
  let words := embWords text
  if words.isEmpty then List.replicate embDimension 0
  else
    let n : ℚ := (words.length : ℚ)
    let v1 := (uniqueInOrder words).foldl
      (fun v w =>
        let tf : ℚ := (countOcc words w : ℚ) / n
        (List.range 3).foldl
          (fun v h =>
            let hs := djb2 (w ++ [Char.ofNat (48 + h)])
            bumpAt v (hashIdx hs) (hashSign hs * tf)) v)
      (List.replicate embDimension 0)
    (words.zip words.tail).foldl
      (fun v p =>
        let hs := djb2 (p.1 ++ '_' :: p.2)
        bumpAt v (hashIdx hs) (((1 : ℚ) / 2) / n)) v1

/-- Sum of squared entries: the square of the magnitude computed at lines
63-65. -/
def sumSq (v : List ℚ) : ℚ := (v.map fun q => q * q).sum

def embMagnitudeSq (t : Str) : ℚ := sumSq (hashEmbeddingAcc t)

/-! ### Further concrete inputs and defaults used by theorems -/

/-- The JS `\s` class as an explicit character list (U+2000 through U+200A
spelled out); extensionally the set accepted by `isJsWs`. -/
def wsChars : List Char :=
  [' ', '\t', '\n', Char.ofNat 11, Char.ofNat 12, '\r', Char.ofNat 160,
   Char.ofNat 0x1680, Char.ofNat 0x2000, Char.ofNat 0x2001, Char.ofNat 0x2002,
   Char.ofNat 0x2003, Char.ofNat 0x2004, Char.ofNat 0x2005, Char.ofNat 0x2006,
   Char.ofNat 0x2007, Char.ofNat 0x2008, Char.ofNat 0x2009, Char.ofNat 0x200a,
   Char.ofNat 0x2028, Char.ofNat 0x2029, Char.ofNat 0x202f, Char.ofNat 0x205f,
   Char.ofNat 0x3000, Char.ofNat 0xfeff]

/-- Default used as the out-of-range fallback of `List.getD` on search
results. -/
def dummySearchResult : SearchResult := ⟨[], [], 0, ⟨[], [], 0, none, none, none, none⟩⟩

/-- Default used as the out-of-range fallback of `List.getD` on citations. -/
def dummyCitation : Citation := ⟨[], none, [], 0⟩

/-- A token-bearing input (7 recognized words) whose `hashEmbedding`
accumulator is exactly the zero vector: every word-hit cancels against
another word's opposite-signed hit at the same index, and the six bigram
hits exactly fill the three remaining negative indices. -/
def c8text : Str :=
  "mmecvg yjvcnrp pistgppvf iavhywi zwygbdef bokeobvv gqfgoo".data

/-- The recognized words of `c8text`. -/
def c8wordList : List Str :=
  ["mmecvg".data, "yjvcnrp".data, "pistgppvf".data, "iavhywi".data,
   "zwygbdef".data, "bokeobvv".data, "gqfgoo".data]

/-- Search result with a negative score, exercising the absence of a lower
confidence clamp. -/
def c5result : SearchResult :=
  ⟨"r1".data, "text".data, -(3/2), ⟨"doc".data, "u".data, 0, none, none, none, none⟩⟩

/-- A 250-character content, exercising citation truncation. -/
def c6content : Str := List.replicate 250 'x'

def c6result : SearchResult :=
  ⟨"r2".data, c6content, 3/4,
    ⟨"doc2".data, "u".data, 1, none, some "Section 1".data, some 2, some false⟩⟩

/-! ## Theorems -/

/-! ### Generic helper lemmas -/

/-- A line starting with two `'a'`s matches none of the eight section
heading patterns (every matcher fails within the first two characters). -/
theorem fpm_aa (rest : Str) : firstPatternMatch ('a' :: 'a' :: rest) = none := rfl

/-- Unfolding `split("|||")` at a head that is not a pipe. -/
theorem splitPipe3_cons_ne (c : Char) (rest : Str) (hc : c ≠ '|') :
    splitPipe3 (c :: rest) = spCons c (splitPipe3 rest) := by
  rw [splitPipe3.eq_def]
  split
  · rename_i heq; exact absurd heq (List.cons_ne_nil _ _)
  · rename_i rest2 heq
    rw [List.cons.injEq] at heq
    exact absurd heq.1 hc
  · rename_i c' rest' _ heq
    injection heq with h1 h2
    subst h1; subst h2; rfl

/-- `split("|||")` of a pipe-free string is a single segment. -/
theorem splitPipe3_no_pipe (l : Str) (h : ∀ c ∈ l, c ≠ '|') : splitPipe3 l = [l] := by
  induction l with
  | nil => rfl
  | cons c rest ih =>
    have hc : c ≠ '|' := h c (List.mem_cons_self c rest)
    have ihr : splitPipe3 rest = [rest] := ih (fun d hd => h d (List.mem_cons_of_mem c hd))
    rw [splitPipe3_cons_ne c rest hc, ihr]; rfl

/-- `split("|||")` around an explicit `|||` marker following a pipe-free
prefix. -/
theorem splitPipe3_marker (xs r : Str) (h : ∀ c ∈ xs, c ≠ '|') :
    splitPipe3 (xs ++ '|' :: '|' :: '|' :: r) = xs :: splitPipe3 r := by
  induction xs with
  | nil => rfl
  | cons c rest ih =>
    have hc : c ≠ '|' := h c (List.mem_cons_self c rest)
    have ihr := ih (fun d hd => h d (List.mem_cons_of_mem c hd))
    rw [List.cons_append, splitPipe3_cons_ne c _ hc, ihr]; rfl

/-- A block of non-whitespace, non-punctuation characters passes through the
sentence-marker rewrite unchanged and leaves a clean state. -/
theorem ism_plain_block (l : Str) (hne : l ≠ [])
    (h : ∀ c ∈ l, isJsWs c = false ∧ isSentPunct c = false) (st : Str × Bool × Bool) :
    l.foldl ismStep st = (l.reverse ++ st.1, false, false) := by
  induction l generalizing st with
  | nil => exact absurd rfl hne
  | cons c rest ih =>
    have hc := h c (List.mem_cons_self c rest)
    have hstep : ismStep st c = (c :: st.1, false, false) := by
      simp [ismStep, hc.1, hc.2]
    rw [List.foldl_cons, hstep]
    cases rest with
    | nil => simp
    | cons d rest2 =>
      rw [ih (List.cons_ne_nil d rest2) (fun e he => h e (List.mem_cons_of_mem c he))]
      simp

/-- A whitespace-only block passes through the sentence-marker rewrite
unchanged when the incoming state is clean. -/
theorem ism_ws_block (l : Str) (h : ∀ c ∈ l, isJsWs c = true) (out : Str) :
    l.foldl ismStep (out, false, false) = (l.reverse ++ out, false, false) := by
  induction l generalizing out with
  | nil => simp
  | cons c rest ih =>
    have hc := h c (List.mem_cons_self c rest)
    have hstep : ismStep (out, false, false) c = (c :: out, false, false) := by
      simp [ismStep, hc]
    rw [List.foldl_cons, hstep, ih (fun e he => h e (List.mem_cons_of_mem c he))]
    simp

/-- A block of non-whitespace characters accumulates into the current word
of the `split(/\s+/)` scan. -/
theorem jssw_nonws_block (l : Str) (hne : l ≠ [])
    (h : ∀ c ∈ l, isJsWs c = false) (st : List Str × Str × Bool) :
    l.foldl jsswStep st = (st.1, l.reverse ++ st.2.1, false) := by
  induction l generalizing st with
  | nil => exact absurd rfl hne
  | cons c rest ih =>
    have hc := h c (List.mem_cons_self c rest)
    have hstep : jsswStep st c = (st.1, c :: st.2.1, false) := by
      simp [jsswStep, hc]
    rw [List.foldl_cons, hstep]
    cases rest with
    | nil => simp
    | cons d rest2 =>
      rw [ih (List.cons_ne_nil d rest2) (fun e he => h e (List.mem_cons_of_mem c he))]
      simp

/-- Dropping leading whitespace stops at a non-whitespace head. -/
theorem dropWhile_ws_cons (c : Char) (l : Str) (h : isJsWs c = false) :
    (c :: l).dropWhile isJsWs = c :: l := by
  simp [List.dropWhile_cons, h]

/-! ### Facts about the concrete C2 input -/

theorem aRun_cons2 : aRun = 'a' :: 'a' :: List.replicate 1993 'a' := rfl

theorem aRun_ne : aRun ≠ [] := by
  rw [aRun_cons2]; exact List.cons_ne_nil _ _

theorem mem_aRun {c : Char} (h : c ∈ aRun) : c = 'a' :=
  List.eq_of_mem_replicate h

theorem aRun_rev : aRun.reverse = aRun := List.reverse_replicate 1995 'a'

theorem aRun_plain : ∀ c ∈ aRun, isJsWs c = false ∧ isSentPunct c = false := by
  intro c hc
  rw [mem_aRun hc]
  exact ⟨by decide, by decide⟩

theorem insertSentenceMarkers_c2text :
    insertSentenceMarkers c2text = (aRun ++ ['.']) ++ '|' :: '|' :: '|' :: aRun := by
  have h1 : isJsWs '.' = false := by decide
  have h2 : isSentPunct '.' = true := by decide
  have h3 : isJsWs ' ' = true := by decide
  unfold insertSentenceMarkers c2text
  rw [List.foldl_append, ism_plain_block aRun aRun_ne aRun_plain]
  rw [List.foldl_cons]
  have hstep1 : ismStep (aRun.reverse ++ [], false, false) '.' = ('.' :: aRun, true, false) := by
    simp [ismStep, h1, h2, aRun_rev]
  rw [hstep1, List.foldl_cons]
  have hstep2 : ismStep (('.' :: aRun : Str), true, false) ' ' =
      ('|' :: '|' :: '|' :: '.' :: aRun, false, true) := by
    simp [ismStep, h3]
  rw [hstep2, ism_plain_block aRun aRun_ne aRun_plain]
  simp [aRun_rev]

theorem aRun_no_pipe : ∀ c ∈ aRun ++ ['.'], c ≠ '|' := by
  intro c hc
  rcases List.mem_append.mp hc with h | h
  · rw [mem_aRun h]; decide
  · simp at h; rw [h]; decide

theorem jsTrim_aRun_dot : jsTrim (aRun ++ ['.']) = aRun ++ ['.'] := by
  unfold jsTrim
  rw [aRun_cons2]
  rw [List.cons_append, dropWhile_ws_cons 'a' _ (by decide)]
  rw [← List.cons_append, ← aRun_cons2]
  rw [List.reverse_append, aRun_rev]
  simp only [List.reverse_cons, List.reverse_nil, List.nil_append, List.singleton_append]
  rw [dropWhile_ws_cons '.' _ (by decide)]
  rw [List.reverse_cons, aRun_rev]

theorem jsTrim_aRun : jsTrim aRun = aRun := by
  unfold jsTrim
  rw [aRun_cons2]
  rw [dropWhile_ws_cons 'a' _ (by decide)]
  rw [← aRun_cons2, aRun_rev, aRun_cons2]
  rw [dropWhile_ws_cons 'a' _ (by decide)]
  rw [← aRun_cons2, aRun_rev]

theorem splitIntoSentences_c2text :
    splitIntoSentences c2text = [aRun ++ ['.'], aRun] := by
  unfold splitIntoSentences
  rw [insertSentenceMarkers_c2text]
  rw [splitPipe3_marker _ _ aRun_no_pipe]
  rw [splitPipe3_no_pipe aRun (fun c hc => by rw [mem_aRun hc]; decide)]
  simp only [List.map_cons, List.map_nil, jsTrim_aRun_dot, jsTrim_aRun]
  have hne1 : ((aRun ++ ['.'] : Str).isEmpty) = false := by
    rw [aRun_cons2]; rfl
  have hne2 : (aRun.isEmpty) = false := by rw [aRun_cons2]; rfl
  simp [List.filter, hne1, hne2]

theorem aRun_len : aRun.length = 1995 := by
  rw [show aRun = List.replicate 1995 'a' from rfl, List.length_replicate]

theorem aRunDot_ne : (aRun ++ ['.'] : Str) ≠ [] := by
  rw [aRun_cons2]; exact List.cons_ne_nil _ _

theorem aRunDot_nonws : ∀ c ∈ (aRun ++ ['.'] : Str), isJsWs c = false := by
  intro c hc
  rcases List.mem_append.mp hc with h | h
  · rw [mem_aRun h]; decide
  · simp at h; rw [h]; decide

theorem jssw_c2cc : jsSplitWsFull ((aRun ++ ['.']) ++ [' ']) = [aRun ++ ['.'], []] := by
  unfold jsSplitWsFull
  rw [List.foldl_append, jssw_nonws_block (aRun ++ ['.']) aRunDot_ne aRunDot_nonws]
  rw [List.foldl_cons]
  have hstep : jsswStep (([] : List Str), (aRun ++ ['.'] : Str).reverse ++ [], false) ' ' =
      ([aRun ++ ['.']], [], true) := by
    simp [jsswStep, show isJsWs ' ' = true from rfl]
  rw [hstep]
  simp

theorem overlap_c2 : getOverlapText ((aRun ++ ['.']) ++ [' ']) = (aRun ++ ['.']) ++ [' ', ' '] := by
  unfold getOverlapText
  rw [jssw_c2cc]
  simp [chunkOverlap, List.intercalate, List.intersperse]

theorem splitNl_no_nl (l : Str) (h : ∀ c ∈ l, c ≠ '\n') : splitNl l = [l] := by
  induction l with
  | nil => rfl
  | cons c rest ih =>
    have hc := h c (List.mem_cons_self c rest)
    rw [splitNl, if_neg hc, ih (fun d hd => h d (List.mem_cons_of_mem c hd))]
    rfl

theorem c2text_cons2 : c2text = 'a' :: 'a' :: (List.replicate 1993 'a' ++ '.' :: ' ' :: aRun) := rfl

theorem fpm_c2text : firstPatternMatch c2text = none := by
  rw [c2text_cons2]; exact fpm_aa _

theorem identifySections_c2text : identifySections c2text = [] := by
  unfold identifySections
  have hnl : splitNl c2text = [c2text] := by
    apply splitNl_no_nl
    intro c hc
    rcases List.mem_append.mp hc with h | h
    · rw [mem_aRun h]; decide
    · rcases h with _ | ⟨_, h⟩
      · decide
      · rcases h with _ | ⟨_, h⟩
        · decide
        · rw [mem_aRun h]; decide
  rw [hnl, identifyLoop, fpm_c2text]
  rfl

theorem est_p1 : ¬ (maxChunkSize < estimateTokens (([] : Str) ++ (aRun ++ ['.']) ++ [' '])) := by
  simp [estimateTokens, maxChunkSize, List.length_append, aRun_len]

theorem est_p2 : maxChunkSize < estimateTokens ((([] : Str) ++ (aRun ++ ['.']) ++ [' ']) ++ aRun ++ [' ']) := by
  simp [estimateTokens, maxChunkSize, List.length_append, aRun_len]

theorem jsTrim_aRunDotSp : jsTrim ((aRun ++ ['.']) ++ [' ']) = aRun ++ ['.'] := by
  unfold jsTrim
  rw [show ((aRun ++ ['.']) ++ [' '] : Str) = 'a' :: (('a' :: List.replicate 1993 'a' ++ ['.']) ++ [' ']) from rfl]
  rw [dropWhile_ws_cons 'a' _ (by decide)]
  rw [show ('a' :: (('a' :: List.replicate 1993 'a' ++ ['.']) ++ [' ']) : Str) = ((aRun ++ ['.']) ++ [' ']) from rfl]
  rw [List.reverse_append, List.reverse_append, aRun_rev]
  simp only [List.reverse_cons, List.reverse_nil, List.nil_append, List.singleton_append,
    List.cons_append]
  rw [List.dropWhile_cons]
  simp only [show isJsWs ' ' = true from rfl, if_true]
  rw [dropWhile_ws_cons '.' _ (by decide)]
  rw [List.reverse_cons, aRun_rev]

theorem jsTrim_c2final :
    jsTrim ((((aRun ++ ['.']) ++ [' ', ' ']) ++ aRun) ++ [' ']) =
      (aRun ++ ['.']) ++ ' ' :: ' ' :: aRun := by
  unfold jsTrim
  rw [show ((((aRun ++ ['.']) ++ [' ', ' ']) ++ aRun) ++ [' '] : Str) =
      'a' :: ((('a' :: List.replicate 1993 'a' ++ ['.']) ++ [' ', ' '] ++ aRun) ++ [' ']) from rfl]
  rw [dropWhile_ws_cons 'a' _ (by decide)]
  rw [show ('a' :: ((('a' :: List.replicate 1993 'a' ++ ['.']) ++ [' ', ' '] ++ aRun) ++ [' ']) : Str) =
      ((((aRun ++ ['.']) ++ [' ', ' ']) ++ aRun) ++ [' ']) from rfl]
  rw [List.reverse_append, List.reverse_append, List.reverse_append, List.reverse_append, aRun_rev]
  simp only [List.reverse_cons, List.reverse_nil, List.nil_append, List.singleton_append,
    List.cons_append, List.append_assoc]
  rw [List.dropWhile_cons]
  simp only [show isJsWs ' ' = true from rfl, if_true]
  rw [show (aRun ++ (' ' :: ' ' :: '.' :: aRun) : Str) = 'a' :: (('a' :: List.replicate 1993 'a') ++ (' ' :: ' ' :: '.' :: aRun)) from rfl]
  rw [dropWhile_ws_cons 'a' _ (by decide)]
  rw [show ('a' :: (('a' :: List.replicate 1993 'a') ++ (' ' :: ' ' :: '.' :: aRun)) : Str) = (aRun ++ (' ' :: ' ' :: '.' :: aRun)) from rfl]
  rw [List.reverse_append, aRun_rev]
  simp [aRun_rev]

theorem chunkDocument_c2text :
    chunkDocument c2text =
      [⟨0, aRun ++ ['.'], 0, ⟨none, none, none, 0, 1997⟩⟩,
       ⟨0, (aRun ++ ['.']) ++ ' ' :: ' ' :: aRun, 1, ⟨none, none, none, -1, 3992⟩⟩] := by
  unfold chunkDocument
  rw [identifySections_c2text]
  simp only [List.isEmpty_nil, if_true]
  unfold slidingWindowChunk
  rw [splitIntoSentences_c2text]
  rw [swcLoop]
  rw [if_neg est_p1]
  rw [swcLoop]
  rw [if_pos est_p2]
  have hie : ((aRun ++ ['.'] : Str).isEmpty) = false := by rw [aRun_cons2]; rfl
  simp only [List.nil_append, jsTrim_aRunDotSp, hie, Bool.false_eq_true, if_false, overlap_c2]
  rw [swcLoop]
  rw [jsTrim_c2final]
  have hie2 : ((aRun ++ ['.']) ++ ' ' :: ' ' :: aRun : Str).isEmpty = false := by
    rw [aRun_cons2]; rfl
  have hc2l : c2text.length = 3992 := by
    rw [show c2text = aRun ++ '.' :: ' ' :: aRun from rfl]
    simp [List.length_append, aRun_len]
  simp only [hie2, Bool.false_eq_true, if_false, List.singleton_append, List.length_nil,
    List.length_cons, List.length_append, aRun_len, hc2l]
  norm_num

theorem estimateTokens_mono {s t : Str} (h : s.length ≤ t.length) :
    estimateTokens s ≤ estimateTokens t :=
  Nat.div_le_div_right (Nat.add_le_add_right h 3)

theorem dropWhile_length_le (p : Char → Bool) (l : Str) :
    (l.dropWhile p).length ≤ l.length := by
  induction l with
  | nil => simp
  | cons c rest ih =>
    rw [List.dropWhile_cons]
    by_cases h : p c = true
    · simp only [h, if_true]
      exact Nat.le_succ_of_le ih
    · simp [h]

theorem jsTrim_length_le (s : Str) : (jsTrim s).length ≤ s.length := by
  unfold jsTrim
  calc ((s.dropWhile isJsWs).reverse.dropWhile isJsWs).reverse.length
      = ((s.dropWhile isJsWs).reverse.dropWhile isJsWs).length := List.length_reverse _
    _ ≤ (s.dropWhile isJsWs).reverse.length := dropWhile_length_le _ _
    _ = (s.dropWhile isJsWs).length := List.length_reverse _
    _ ≤ s.length := dropWhile_length_le _ _

theorem estimateTokens_jsTrim_le (s : Str) : estimateTokens (jsTrim s) ≤ estimateTokens s :=
  estimateTokens_mono (jsTrim_length_le s)

theorem swcLoop_size (tl : Nat) (sents0 : List Str) :
    ∀ (sentences : List Str) (cc : Str) (cs curs : Int) (acc : List DocumentChunk),
      (∀ s ∈ sentences, s ∈ sents0) →
      (estimateTokens cc ≤ maxChunkSize ∨
        ∃ prev s, s ∈ sents0 ∧ cc = getOverlapText prev ++ s ++ [' ']) →
      (∀ c ∈ acc, estimateTokens c.content ≤ maxChunkSize ∨
        ∃ prev s, s ∈ sents0 ∧ c.content = jsTrim (getOverlapText prev ++ s ++ [' '])) →
      ∀ c ∈ swcLoop tl sentences cc cs curs acc,
        estimateTokens c.content ≤ maxChunkSize ∨
        ∃ prev s, s ∈ sents0 ∧ c.content = jsTrim (getOverlapText prev ++ s ++ [' ']) := by
  intro sentences
  induction sentences with
  | nil =>
    intro cc cs curs acc hsub hcc hacc c hc
    rw [swcLoop] at hc
    split at hc
    · exact hacc c hc
    · rcases List.mem_append.mp hc with h | h
      · exact hacc c h
      · rw [List.mem_singleton] at h
        subst h
        rcases hcc with h1 | ⟨prev, s, hs, hcc⟩
        · exact Or.inl (le_trans (estimateTokens_jsTrim_le cc) h1)
        · exact Or.inr ⟨prev, s, hs, by rw [hcc]⟩
  | cons s rest ih =>
    intro cc cs curs acc hsub hcc hacc c hc
    simp only [swcLoop] at hc
    by_cases hbig : maxChunkSize < estimateTokens (cc ++ s ++ [' '])
    · rw [if_pos hbig] at hc
      have hacc2 : ∀ d ∈ (if (jsTrim cc).isEmpty = true then acc
          else acc ++ [⟨0, jsTrim cc, acc.length, ⟨none, none, none, cs, cs + cc.length⟩⟩]),
          estimateTokens d.content ≤ maxChunkSize ∨
          ∃ prev s, s ∈ sents0 ∧ d.content = jsTrim (getOverlapText prev ++ s ++ [' ']) := by
        intro d hd
        split at hd
        · exact hacc d hd
        · rcases List.mem_append.mp hd with h | h
          · exact hacc d h
          · rw [List.mem_singleton] at h
            subst h
            rcases hcc with h1 | ⟨prev, s', hs', hcc⟩
            · exact Or.inl (le_trans (estimateTokens_jsTrim_le cc) h1)
            · exact Or.inr ⟨prev, s', hs', by rw [hcc]⟩
      exact ih (getOverlapText cc ++ s ++ [' ']) (curs - (getOverlapText cc).length)
        (curs + s.length + 1) _
        (fun t ht => hsub t (List.mem_cons_of_mem s ht))
        (Or.inr ⟨cc, s, hsub s (List.mem_cons_self s rest), rfl⟩)
        hacc2 c hc
    · rw [if_neg hbig] at hc
      exact ih (cc ++ s ++ [' ']) cs (curs + s.length + 1) _
        (fun t ht => hsub t (List.mem_cons_of_mem s ht))
        (Or.inl (Nat.le_of_not_lt hbig))
        hacc c hc

theorem slsLoop_size (title clause : Option Str) (secStart : Int) (secTextLen : Nat)
    (sents0 : List Str) :
    ∀ (sentences : List Str) (cc : Str) (cs : Int) (acc : List DocumentChunk),
      (∀ s ∈ sentences, s ∈ sents0) →
      (estimateTokens cc ≤ maxChunkSize ∨
        ∃ prev s, s ∈ sents0 ∧ cc = getOverlapText prev ++ s ++ [' ']) →
      (∀ c ∈ acc, estimateTokens c.content ≤ maxChunkSize ∨
        ∃ prev s, s ∈ sents0 ∧ c.content = jsTrim (getOverlapText prev ++ s ++ [' '])) →
      ∀ c ∈ slsLoop title clause secStart secTextLen sentences cc cs acc,
        estimateTokens c.content ≤ maxChunkSize ∨
        ∃ prev s, s ∈ sents0 ∧ c.content = jsTrim (getOverlapText prev ++ s ++ [' ']) := by
  intro sentences
  induction sentences with
  | nil =>
    intro cc cs acc hsub hcc hacc c hc
    rw [slsLoop] at hc
    split at hc
    · exact hacc c hc
    · rcases List.mem_append.mp hc with h | h
      · exact hacc c h
      · rw [List.mem_singleton] at h
        subst h
        rcases hcc with h1 | ⟨prev, s, hs, hcc⟩
        · exact Or.inl (le_trans (estimateTokens_jsTrim_le cc) h1)
        · exact Or.inr ⟨prev, s, hs, by rw [hcc]⟩
  | cons s rest ih =>
    intro cc cs acc hsub hcc hacc c hc
    simp only [slsLoop] at hc
    by_cases hbig : maxChunkSize < estimateTokens (cc ++ s ++ [' '])
    · rw [if_pos hbig] at hc
      have hacc2 : ∀ d ∈ (if (jsTrim cc).isEmpty = true then acc
          else acc ++ [⟨0, jsTrim cc, 0, ⟨title, clause, none, cs, cs + cc.length⟩⟩]),
          estimateTokens d.content ≤ maxChunkSize ∨
          ∃ prev s, s ∈ sents0 ∧ d.content = jsTrim (getOverlapText prev ++ s ++ [' ']) := by
        intro d hd
        split at hd
        · exact hacc d hd
        · rcases List.mem_append.mp hd with h | h
          · exact hacc d h
          · rw [List.mem_singleton] at h
            subst h
            rcases hcc with h1 | ⟨prev, s', hs', hcc⟩
            · exact Or.inl (le_trans (estimateTokens_jsTrim_le cc) h1)
            · exact Or.inr ⟨prev, s', hs', by rw [hcc]⟩
      exact ih (getOverlapText cc ++ s ++ [' ']) _ _
        (fun t ht => hsub t (List.mem_cons_of_mem s ht))
        (Or.inr ⟨cc, s, hsub s (List.mem_cons_self s rest), rfl⟩)
        hacc2 c hc
    · rw [if_neg hbig] at hc
      exact ih (cc ++ s ++ [' ']) cs _
        (fun t ht => hsub t (List.mem_cons_of_mem s ht))
        (Or.inl (Nat.le_of_not_lt hbig))
        hacc c hc

theorem pushAll_content (l : List DocumentChunk) :
    ∀ (acc : List DocumentChunk) (c : DocumentChunk), c ∈ pushAll acc l →
      c ∈ acc ∨ ∃ d ∈ l, c.content = d.content := by
  induction l with
  | nil => intro acc c hc; exact Or.inl hc
  | cons d rest ih =>
    intro acc c hc
    rw [pushAll] at hc
    rcases ih _ c hc with h | ⟨e, he, hce⟩
    · rcases List.mem_append.mp h with h1 | h1
      · exact Or.inl h1
      · rw [List.mem_singleton] at h1
        subst h1
        exact Or.inr ⟨d, List.mem_cons_self d rest, rfl⟩
    · exact Or.inr ⟨e, List.mem_cons_of_mem d he, hce⟩

theorem jsSlice_full (text : Str) : jsSlice text 0 text.length = text := by
  simp [jsSlice]

theorem estimateTokens_nil : estimateTokens ([] : Str) ≤ maxChunkSize := by decide

theorem splitLargeSection_size (sectionText : Str) (title clause : Option Str) (secStart : Nat) :
    ∀ c ∈ splitLargeSection sectionText title clause secStart,
      estimateTokens c.content ≤ maxChunkSize ∨
      ∃ prev s, s ∈ splitIntoSentences sectionText ∧
        c.content = jsTrim (getOverlapText prev ++ s ++ [' ']) := by
  intro c hc
  exact slsLoop_size title clause secStart sectionText.length (splitIntoSentences sectionText)
    (splitIntoSentences sectionText) [] secStart []
    (fun s hs => hs) (Or.inl estimateTokens_nil) (fun d hd => absurd hd (List.not_mem_nil d)) c hc

theorem sectionLoop_size (text : Str) :
    ∀ (sections : List SectionInfo) (acc : List DocumentChunk),
      (∀ c ∈ acc, chunkSizeOk text c) →
      ∀ c ∈ sectionLoop text sections acc, chunkSizeOk text c := by
  intro sections
  induction sections with
  | nil => intro acc hacc c hc; rw [sectionLoop] at hc; exact hacc c hc
  | cons sec rest ih =>
    intro acc hacc c hc
    simp only [sectionLoop] at hc
    by_cases hfit : estimateTokens (jsSlice text sec.start sec.stop) ≤ maxChunkSize
    · rw [if_pos hfit] at hc
      refine ih _ ?_ c hc
      intro d hd
      rcases List.mem_append.mp hd with h | h
      · exact hacc d h
      · rw [List.mem_singleton] at h
        subst h
        exact Or.inl (le_trans (estimateTokens_jsTrim_le _) hfit)
    · rw [if_neg hfit] at hc
      refine ih _ ?_ c hc
      intro d hd
      rcases pushAll_content _ acc d hd with h | ⟨e, he, hde⟩
      · exact hacc d h
      · rcases splitLargeSection_size _ _ _ _ e he with h1 | ⟨prev, s, hs, hce⟩
        · exact Or.inl (by rw [hde]; exact h1)
        · exact Or.inr ⟨prev, s, sec.start, sec.stop, hs, by rw [hde, hce]⟩

theorem sectionLoop_count (text : Str) :
    ∀ (sections : List SectionInfo) (acc : List DocumentChunk),
      (∀ sec ∈ sections, estimateTokens (jsSlice text sec.start sec.stop) ≤ maxChunkSize) →
      (sectionLoop text sections acc).length = acc.length + sections.length := by
  intro sections
  induction sections with
  | nil => intro acc _; rw [sectionLoop]; rfl
  | cons sec rest ih =>
    intro acc hfits
    simp only [sectionLoop]
    rw [if_pos (hfits sec (List.mem_cons_self sec rest))]
    rw [ih _ (fun t ht => hfits t (List.mem_cons_of_mem sec ht))]
    simp [List.length_append]
    omega

theorem chunkDocument_size (text : Str) :
    ∀ c ∈ chunkDocument text, chunkSizeOk text c := by
  intro c hc
  unfold chunkDocument at hc
  by_cases h : (identifySections text).isEmpty
  · rw [if_pos h] at hc
    unfold slidingWindowChunk at hc
    rcases swcLoop_size text.length (splitIntoSentences text) (splitIntoSentences text)
      [] 0 0 [] (fun s hs => hs) (Or.inl estimateTokens_nil)
      (fun d hd => absurd hd (List.not_mem_nil d)) c hc with h1 | ⟨prev, s, hs, hcs⟩
    · exact Or.inl h1
    · refine Or.inr ⟨prev, s, 0, text.length, ?_, hcs⟩
      rw [jsSlice_full]
      exact hs
  · rw [if_neg h] at hc
    exact sectionLoop_size text (identifySections text) []
      (fun d hd => absurd hd (List.not_mem_nil d)) c hc

/-- C1 counterexample: on the scenario input, the chunker identifies exactly
1 section and produces exactly 1 chunk, not 2 of each as claimed. -/
theorem claim_C1_counterexample :
    (identifySections c1text).length = 1 ∧ (chunkDocument c1text).length = 1 ∧
    ¬ ((identifySections c1text).length = 2 ∧ (chunkDocument c1text).length = 2) := by
  decide

/-- C1 (amended): the scenario input is a single line, and every heading
pattern is line-start anchored, so the mid-line "Section 2:" heading is not
detected: `identifySections` finds exactly one section, spanning the whole
text with clause number "1", and `chunkDocument` emits exactly one chunk
(the whole text, under the size limit). -/
theorem claim_C1_amended :
    identifySections c1text = [⟨0, 89, some c1text, some ['1']⟩] ∧
    chunkDocument c1text = [⟨0, c1text, 0, ⟨some c1text, some ['1'], none, 0, 89⟩⟩] ∧
    estimateTokens c1text ≤ maxChunkSize := by
  decide

theorem est_aRunDot : estimateTokens (aRun ++ ['.']) = 499 := by
  simp [estimateTokens, List.length_append, aRun_len]

theorem est_aRun : estimateTokens aRun = 499 := by
  simp [estimateTokens, aRun_len]

theorem est_c2big : estimateTokens (aRun ++ '.' :: ' ' :: ' ' :: aRun) = 999 := by
  simp [estimateTokens, List.length_append, aRun_len]

/-- C2 counterexample: on `c2text` every sentence fits the limit (499
tokens each), yet the chunker emits a chunk of 999 estimated tokens — the
overlap text carried into the second chunk makes it exceed `maxChunkSize`
although no single sentence does. -/
theorem claim_C2_counterexample :
    ((splitIntoSentences c2text).all (fun s => decide (estimateTokens s ≤ maxChunkSize)) = true) ∧
    ((chunkDocument c2text).all (fun c => decide (estimateTokens c.content ≤ maxChunkSize)) = false) := by
  constructor
  · rw [splitIntoSentences_c2text]
    simp [List.all_cons, est_aRunDot, est_aRun, maxChunkSize]
  · rw [chunkDocument_c2text]
    simp [List.all_cons, est_aRunDot, est_c2big, maxChunkSize]

/-- C2 (amended): every chunk emitted by `chunkDocument` has an estimated
token count at most `maxChunkSize` (500), except chunks of the form
"retained overlap text followed by a single sentence" — which covers both
the case of a single oversized sentence and the case where the ~50-word
overlap prepended to a sentence pushes a carried-over chunk past the limit.
A section whose estimate is exactly `maxChunkSize` is accepted as a single
chunk (the split triggers only on strict excess): when every identified
section fits the limit, exactly one chunk is emitted per section. -/
theorem claim_C2_amended (text : Str) :
    (∀ c ∈ chunkDocument text, chunkSizeOk text c) ∧
    ((identifySections text ≠ [] ∧
      ∀ sec ∈ identifySections text, estimateTokens (jsSlice text sec.start sec.stop) ≤ maxChunkSize) →
      (chunkDocument text).length = (identifySections text).length) := by
  constructor
  · exact chunkDocument_size text
  · rintro ⟨hne, hfits⟩
    have hie : (identifySections text).isEmpty = false := by
      cases hI : identifySections text with
      | nil => exact absurd hI hne
      | cons a l => rfl
    simp only [chunkDocument, hie, Bool.false_eq_true, if_false]
    rw [sectionLoop_count text _ [] hfits]
    simp

/-- Witness for C2 (amended) at the concrete input `c1text`. -/
theorem claim_C2_witness :
    chunkSizeOk c1text ⟨0, c1text, 0, ⟨some c1text, some ['1'], none, 0, 89⟩⟩ ∧
    (chunkDocument c1text).length = (identifySections c1text).length :=
  ⟨(claim_C2_amended c1text).1 _ (by decide),
   (claim_C2_amended c1text).2 ⟨by decide, by decide⟩⟩

theorem idx_append (l : List DocumentChunk) (c : DocumentChunk)
    (hl : ∀ i, i < l.length → ((l.getD i dummyChunk).chunkIndex = i))
    (hc : c.chunkIndex = l.length) :
    ∀ i, i < (l ++ [c]).length → (((l ++ [c]).getD i dummyChunk).chunkIndex = i) := by
  intro i h
  rcases Nat.lt_or_ge i l.length with hi | hi
  · rw [List.getD_append _ _ _ _ hi]
    exact hl i hi
  · have hieq : i = l.length := by
      simp only [List.length_append, List.length_singleton] at h
      omega
    subst hieq
    rw [List.getD_append_right _ _ _ _ hi]
    simpa using hc

theorem swcLoop_idx (tl : Nat) :
    ∀ (sentences : List Str) (cc : Str) (cs curs : Int) (acc : List DocumentChunk),
      (∀ i, i < acc.length → ((acc.getD i dummyChunk).chunkIndex = i)) →
      ∀ i, i < (swcLoop tl sentences cc cs curs acc).length →
        (((swcLoop tl sentences cc cs curs acc).getD i dummyChunk).chunkIndex = i) := by
  intro sentences
  induction sentences with
  | nil =>
    intro cc cs curs acc hacc
    rw [swcLoop]
    by_cases hemp : (jsTrim cc).isEmpty = true
    · rw [if_pos hemp]; exact hacc
    · rw [if_neg hemp]; exact idx_append acc _ hacc rfl
  | cons s rest ih =>
    intro cc cs curs acc hacc
    simp only [swcLoop]
    by_cases hbig : maxChunkSize < estimateTokens (cc ++ s ++ [' '])
    · rw [if_pos hbig]
      by_cases hemp : (jsTrim cc).isEmpty = true
      · rw [if_pos hemp]
        exact ih _ _ _ _ hacc
      · rw [if_neg hemp]
        exact ih _ _ _ _ (idx_append acc _ hacc rfl)
    · rw [if_neg hbig]
      exact ih _ _ _ _ hacc

theorem pushAll_idx :
    ∀ (l : List DocumentChunk) (acc : List DocumentChunk),
      (∀ i, i < acc.length → ((acc.getD i dummyChunk).chunkIndex = i)) →
      ∀ i, i < (pushAll acc l).length → (((pushAll acc l).getD i dummyChunk).chunkIndex = i) := by
  intro l
  induction l with
  | nil => intro acc hacc; rw [pushAll]; exact hacc
  | cons c rest ih =>
    intro acc hacc
    rw [pushAll]
    exact ih _ (idx_append acc _ hacc rfl)

theorem sectionLoop_idx (text : Str) :
    ∀ (sections : List SectionInfo) (acc : List DocumentChunk),
      (∀ i, i < acc.length → ((acc.getD i dummyChunk).chunkIndex = i)) →
      ∀ i, i < (sectionLoop text sections acc).length →
        (((sectionLoop text sections acc).getD i dummyChunk).chunkIndex = i) := by
  intro sections
  induction sections with
  | nil => intro acc hacc; rw [sectionLoop]; exact hacc
  | cons sec rest ih =>
    intro acc hacc
    simp only [sectionLoop]
    by_cases hfit : estimateTokens (jsSlice text sec.start sec.stop) ≤ maxChunkSize
    · rw [if_pos hfit]
      exact ih _ (idx_append acc _ hacc rfl)
    · rw [if_neg hfit]
      exact ih _ (pushAll_idx _ acc hacc)

/-- C9: chunk indices are contiguous and strictly increasing from 0 — the
i-th chunk emitted by `chunkDocument` has `chunkIndex = i`, in both the
section-based path and the sliding-window fallback. -/
theorem claim_C9_chunk_indices (text : Str) :
    ∀ i, i < (chunkDocument text).length →
      ((chunkDocument text).getD i dummyChunk).chunkIndex = i := by
  unfold chunkDocument
  by_cases h : (identifySections text).isEmpty
  · rw [if_pos h]
    unfold slidingWindowChunk
    exact swcLoop_idx text.length _ [] 0 0 [] (fun i hi => absurd hi (by simp))
  · rw [if_neg h]
    exact sectionLoop_idx text _ [] (fun i hi => absurd hi (by simp))

/-- Witness for C9 at the concrete input `c1text`. -/
theorem claim_C9_witness :
    ((chunkDocument c1text).getD 0 dummyChunk).chunkIndex = 0 :=
  claim_C9_chunk_indices c1text 0 (by decide)

/-! ### Whitespace-character facts -/

/-- Every character accepted by `isJsWs` is in the explicit list `wsChars`. -/
theorem mem_wsChars (c : Char) (h : isJsWs c = true) : c ∈ wsChars := by
  simp only [isJsWs, Bool.or_eq_true, Bool.and_eq_true, decide_eq_true_eq] at h
  rcases h with ((((((((((((((h|h)|h)|h)|h)|h)|h)|h)|h)|h)|h)|h)|h)|h)|h)
  all_goals
    first
    | (subst h; decide)
    | (obtain ⟨h1, h2⟩ := h
       have h4 : c.toNat = 8192 ∨ c.toNat = 8193 ∨ c.toNat = 8194 ∨ c.toNat = 8195 ∨
           c.toNat = 8196 ∨ c.toNat = 8197 ∨ c.toNat = 8198 ∨ c.toNat = 8199 ∨
           c.toNat = 8200 ∨ c.toNat = 8201 ∨ c.toNat = 8202 := by omega
       rcases h4 with h4|h4|h4|h4|h4|h4|h4|h4|h4|h4|h4 <;>
         (rw [show c = Char.ofNat c.toNat from (Char.ofNat_toNat c).symm, h4]; decide))

/-- Whitespace characters cannot begin any alphabetic, digit, roman or
parenthesis pattern. -/
theorem wsChars_not_letterish : ∀ c ∈ wsChars,
    toLowerAscii c ≠ 's' ∧ toLowerAscii c ≠ 'a' ∧ toLowerAscii c ≠ 'c' ∧
    toLowerAscii c ≠ 'r' ∧ toLowerAscii c ≠ 'o' ∧ isAsciiDigit c = false ∧
    isRomanUpper c = false ∧ c ≠ '(' := by decide

/-- Whitespace characters are inert for the sentence splitter, the pipe
split and every `normalizeText` character rewrite. -/
theorem wsChars_plain : ∀ c ∈ wsChars,
    isSentPunct c = false ∧ c ≠ '|' ∧ c ≠ 'l' ∧ normQuote c = c ∧
    normApos c = c ∧ normDash c = c ∧ c ≠ Char.ofNat 0x2026 := by decide

/-! ### No pattern matches a whitespace-only line -/

theorem stripCI_head_ne (p : Char) (ps : Str) (c : Char) (cs : Str)
    (h : toLowerAscii c ≠ toLowerAscii p) : stripCI (p :: ps) (c :: cs) = none := by
  simp [stripCI, h]

theorem matchSectionPat_ws (c : Char) (rest : Str) (h : toLowerAscii c ≠ 's') :
    matchSectionPat (c :: rest) = none := by
  have hs : stripCI "section".data (c :: rest) = none := by
    rw [show ("section".data : Str) = 's' :: "ection".data from rfl]
    exact stripCI_head_ne _ _ _ _ (by simpa using h)
  simp [matchSectionPat, hs]

theorem matchArticlePat_ws (c : Char) (rest : Str) (h : toLowerAscii c ≠ 'a') :
    matchArticlePat (c :: rest) = none := by
  have hs : stripCI "article".data (c :: rest) = none := by
    rw [show ("article".data : Str) = 'a' :: "rticle".data from rfl]
    exact stripCI_head_ne _ _ _ _ (by simpa using h)
  simp [matchArticlePat, hs]

theorem matchClausePat_ws (c : Char) (rest : Str) (h : toLowerAscii c ≠ 'c') :
    matchClausePat (c :: rest) = none := by
  have hs : stripCI "clause".data (c :: rest) = none := by
    rw [show ("clause".data : Str) = 'c' :: "lause".data from rfl]
    exact stripCI_head_ne _ _ _ _ (by simpa using h)
  simp [matchClausePat, hs]

theorem matchRulePat_ws (c : Char) (rest : Str) (h : toLowerAscii c ≠ 'r') :
    matchRulePat (c :: rest) = none := by
  have hs : stripCI "rule".data (c :: rest) = none := by
    rw [show ("rule".data : Str) = 'r' :: "ule".data from rfl]
    exact stripCI_head_ne _ _ _ _ (by simpa using h)
  simp [matchRulePat, hs]

theorem matchOrderPat_ws (c : Char) (rest : Str) (h : toLowerAscii c ≠ 'o') :
    matchOrderPat (c :: rest) = none := by
  have hs : stripCI "order".data (c :: rest) = none := by
    rw [show ("order".data : Str) = 'o' :: "rder".data from rfl]
    exact stripCI_head_ne _ _ _ _ (by simpa using h)
  simp [matchOrderPat, hs]

theorem matchNumberedPat_ws (c : Char) (rest : Str) (h : isAsciiDigit c = false) :
    matchNumberedPat (c :: rest) = none := by
  simp [matchNumberedPat, digits1, List.takeWhile, h]

theorem matchRomanPat_ws (c : Char) (rest : Str) (h : isRomanUpper c = false) :
    matchRomanPat (c :: rest) = none := by
  simp [matchRomanPat, List.takeWhile, h]

theorem matchParenPat_ws (c : Char) (rest : Str) (h : c ≠ '(') :
    matchParenPat (c :: rest) = none := by
  simp only [matchParenPat]
  split
  · rename_i heq
    rw [List.cons.injEq] at heq
    exact absurd heq.1 h
  · rfl

/-- A line whose first character is JS whitespace matches none of the eight
section heading patterns. -/
theorem fpm_ws_head (c : Char) (rest : Str) (h : isJsWs c = true) :
    firstPatternMatch (c :: rest) = none := by
  obtain ⟨h1, h2, h3, h4, h5, h6, h7, h8⟩ := wsChars_not_letterish c (mem_wsChars c h)
  simp [firstPatternMatch, matchSectionPat_ws c rest h1, matchArticlePat_ws c rest h2,
    matchClausePat_ws c rest h3, matchRulePat_ws c rest h4, matchOrderPat_ws c rest h5,
    matchNumberedPat_ws c rest h6, matchRomanPat_ws c rest h7, matchParenPat_ws c rest h8]

/-! ### Chunking a whitespace-only text yields no chunks -/

theorem splitNl_ne_nil (t : Str) : splitNl t ≠ [] := by
  cases t with
  | nil => simp [splitNl]
  | cons c rest =>
    simp only [splitNl]
    split
    · simp
    · cases h : splitNl rest with
      | nil => simp [spCons]
      | cons s ss => simp [spCons]

theorem splitNl_allWs (text : Str) (h : ∀ c ∈ text, isJsWs c = true) :
    ∀ l ∈ splitNl text, ∀ c ∈ l, isJsWs c = true := by
  induction text with
  | nil => intro l hl; simp [splitNl] at hl; simp [hl]
  | cons c rest ih =>
    intro l hl
    have hc := h c (by simp)
    have hrest : ∀ d ∈ rest, isJsWs d = true := fun d hd => h d (by simp [hd])
    simp only [splitNl] at hl
    by_cases hnl : c = '\n'
    · rw [if_pos hnl] at hl
      rcases List.mem_cons.mp hl with rfl | hl'
      · intro d hd; simp at hd
      · exact ih hrest l hl'
    · rw [if_neg hnl] at hl
      cases hsp : splitNl rest with
      | nil => exact absurd hsp (splitNl_ne_nil rest)
      | cons s ss =>
        rw [hsp] at hl
        simp only [spCons] at hl
        rcases List.mem_cons.mp hl with rfl | hl'
        · intro d hd
          rcases List.mem_cons.mp hd with rfl | hd'
          · exact hc
          · exact ih hrest s (by rw [hsp]; exact List.mem_cons_self s ss) d hd'
        · exact ih hrest l (by rw [hsp]; exact List.mem_cons_of_mem s hl')

theorem identifyLoop_all_none (n : Nat) (lines : List Str)
    (h : ∀ l ∈ lines, firstPatternMatch l = none) :
    ∀ pos, identifyLoop n lines pos [] = [] := by
  induction lines with
  | nil => intro pos; rfl
  | cons line rest ih =>
    intro pos
    simp only [identifyLoop, h line (List.mem_cons_self line rest)]
    exact ih (fun l hl => h l (List.mem_cons_of_mem line hl)) _

theorem identifySections_allWs (text : Str) (h : ∀ c ∈ text, isJsWs c = true) :
    identifySections text = [] := by
  apply identifyLoop_all_none
  intro l hl
  cases l with
  | nil => rfl
  | cons c rest =>
    exact fpm_ws_head c rest (splitNl_allWs text h (c :: rest) hl c (by simp))

theorem ism_foldl_no_punct (s : Str) (h : ∀ c ∈ s, isSentPunct c = false) :
    ∀ out : Str, s.foldl ismStep (out, false, false) = (s.reverse ++ out, false, false) := by
  induction s with
  | nil => intro out; simp
  | cons c rest ih =>
    intro out
    have hc := h c (by simp)
    have hstep : ismStep (out, false, false) c = (c :: out, false, false) := by
      simp [ismStep, hc]
    rw [List.foldl_cons, hstep, ih (fun d hd => h d (by simp [hd]))]
    simp

theorem insertSentenceMarkers_no_punct (s : Str)
    (h : ∀ c ∈ s, isSentPunct c = false) : insertSentenceMarkers s = s := by
  rw [insertSentenceMarkers, ism_foldl_no_punct s h []]
  simp

theorem jsTrim_allWs (s : Str) (h : ∀ c ∈ s, isJsWs c = true) : jsTrim s = [] := by
  have hd : s.dropWhile isJsWs = [] := by
    induction s with
    | nil => rfl
    | cons c rest ih =>
      rw [List.dropWhile_cons_of_pos (h c (by simp))]
      exact ih fun d hd => h d (by simp [hd])
  simp [jsTrim, hd]

theorem splitIntoSentences_allWs (text : Str) (h : ∀ c ∈ text, isJsWs c = true) :
    splitIntoSentences text = [] := by
  have hpl : ∀ c ∈ text, isSentPunct c = false :=
    fun c hc => ((wsChars_plain c (mem_wsChars c (h c hc))).1)
  have hpp : ∀ c ∈ text, c ≠ '|' :=
    fun c hc => ((wsChars_plain c (mem_wsChars c (h c hc))).2.1)
  rw [splitIntoSentences, insertSentenceMarkers_no_punct text hpl,
    splitPipe3_no_pipe text hpp, List.map_cons, List.map_nil,
    jsTrim_allWs text h]
  rfl

theorem chunkDocument_allWs (text : Str) (h : ∀ c ∈ text, isJsWs c = true) :
    chunkDocument text = [] := by
  rw [chunkDocument]
  simp only [identifySections_allWs text h, List.isEmpty_nil, if_pos]
  rw [slidingWindowChunk, splitIntoSentences_allWs text h]
  rfl

/-! ### Normalizing a whitespace-only text yields the empty string -/

theorem fixOcrL_no_l (s : Str) (h : ∀ c ∈ s, c ≠ 'l') :
    ∀ prev, fixOcrL prev s = s := by
  induction s with
  | nil => intro prev; rfl
  | cons c rest ih =>
    intro prev
    rw [fixOcrL, if_neg (h c (by simp)), ih fun d hd => h d (by simp [hd])]

theorem collapseWs_allWs_true (s : Str) (h : ∀ c ∈ s, isJsWs c = true) :
    collapseWs true s = [] := by
  induction s with
  | nil => rfl
  | cons c rest ih =>
    rw [collapseWs, if_pos (h c (by simp))]
    exact ih fun d hd => h d (by simp [hd])

theorem normalizeText_allWs (text : Str) (h : ∀ c ∈ text, isJsWs c = true) :
    normalizeText text = [] := by
  have hl : ∀ c ∈ text, c ≠ 'l' :=
    fun c hc => ((wsChars_plain c (mem_wsChars c (h c hc))).2.2.1)
  rw [normalizeText, fixOcrL_no_l text hl none]
  cases text with
  | nil => rfl
  | cons c rest =>
    rw [collapseWs, if_pos (h c (by simp)),
      collapseWs_allWs_true rest (fun d hd => h d (by simp [hd]))]
    rfl

/-! ### Persisted-status lemma -/

theorem setDocStatus_mem (db : DbState) (id st : Str) :
    ∀ p ∈ (setDocStatus db id st).docStatus, p.1 = id → p.2 = st := by
  intro p hp hid
  simp only [setDocStatus, List.mem_map] at hp
  obtain ⟨q, _, rfl⟩ := hp
  by_cases hq : q.1 = id
  · simp [hq]
  · rw [if_neg hq] at hid ⊢
    exact absurd hid hq

/-- C3: a document whose extracted text is empty or whitespace-only
produces zero chunks, and `ingestDocument` returns a `"failed"` result
(never `"completed"`) with every persisted status row for the document set
to `"failed"`: the zero-chunks check throws and the catch persists the
failure (pipeline.ts lines 62-64 and 137-152). -/
theorem claim_C3 (text : Str) (h : ∀ c ∈ text, isJsWs c = true)
    (docId userId llmSummary : Str) (db : DbState) :
    chunkDocument text = [] ∧
    (ingestDocument docId userId (.ok text) llmSummary db).1.status = "failed".data ∧
    (ingestDocument docId userId (.ok text) llmSummary db).1.chunksCreated = 0 ∧
    (ingestDocument docId userId (.ok text) llmSummary db).1.status ≠ "completed".data ∧
    ∀ p ∈ ((ingestDocument docId userId (.ok text) llmSummary db).2).docStatus,
      p.1 = docId → p.2 = "failed".data := by
  have hnorm := normalizeText_allWs text h
  have hres : ingestDocument docId userId (.ok text) llmSummary db =
      (⟨docId, 0, "failed".data, some "No text could be extracted from document".data⟩,
        setDocStatus (setDocStatus db docId "processing".data) docId "failed".data) := by
    simp only [ingestDocument, hnorm]
    rfl
  refine ⟨chunkDocument_allWs text h, ?_, ?_, ?_, ?_⟩
  · rw [hres]
  · rw [hres]
  · rw [hres]
    show ("failed".data : Str) ≠ "completed".data
    decide
  · rw [hres]
    exact setDocStatus_mem _ _ _

/-- Witness for C3 at the one-space document. -/
theorem claim_C3_witness :
    (∀ c ∈ (" ".data : Str), isJsWs c = true) ∧
    chunkDocument " ".data = [] ∧
    (ingestDocument "d".data "u".data (.ok " ".data) "s".data
        ⟨[("d".data, "uploaded".data)], 0, 0, [], []⟩).1.status = "failed".data :=
  ⟨by decide, (claim_C3 " ".data (by decide) "d".data "u".data "s".data
      ⟨[("d".data, "uploaded".data)], 0, 0, [], []⟩).1,
    (claim_C3 " ".data (by decide) "d".data "u".data "s".data
      ⟨[("d".data, "uploaded".data)], 0, 0, [], []⟩).2.1⟩

/-! ### Text-extraction fallback (C4) -/

/-- C4 counterexample: a DOCX whose primary parser fails is rethrown as a
fixed error with the printable-text fallback never attempted (the `Bool`
instrumentation is `false`), refuting "extraction never throws on malformed
structured content without first attempting the fallback". -/
theorem claim_C4_counterexample :
    extractText "docx".data [] [] (.ok ⟨[], 1⟩) (.error "parse failure".data)
      = (.error docxErr, false) := rfl

/-- C4 amended: only the PDF path attempts the printable-text fallback on
primary failure (flag `true`), succeeding exactly when the recovered text
is longer than 50 characters; the DOCX path rethrows with no fallback
(flag `false`); primary successes never attempt the fallback. -/
theorem claim_C4_amended (e buffer filename : Str)
    (pdfParse : Except Str ProcessedDoc) (docxParse : Except Str Str) :
    (extractText "pdf".data buffer filename (.error e) docxParse
        = (if 50 < (extractTextFromPDFBuffer buffer).length
           then (.ok ⟨extractTextFromPDFBuffer buffer, 1⟩, true)
           else (.error pdfFallbackErr, true))) ∧
    (extractText "application/pdf".data buffer filename (.error e) docxParse
        = (if 50 < (extractTextFromPDFBuffer buffer).length
           then (.ok ⟨extractTextFromPDFBuffer buffer, 1⟩, true)
           else (.error pdfFallbackErr, true))) ∧
    (extractText "docx".data buffer filename pdfParse (.error e)
        = (.error docxErr, false)) ∧
    (∀ d, extractText "pdf".data buffer filename (.ok d) docxParse = (.ok d, false)) ∧
    (∀ d, extractText "docx".data buffer filename pdfParse (.ok d) = (.ok ⟨d, 1⟩, false)) := by
  refine ⟨rfl, rfl, rfl, fun d => rfl, fun d => rfl⟩

/-! ### Query confidence (C5) -/

/-- C5: for a non-empty search result list the confidence is the mean of
the scores clamped above at 1 (`Math.min(avgScore, 1)`, pipeline.ts lines
211-214); no lower clamp exists, as the negative-score witness shows. -/
theorem claim_C5 (userId queryText : Str) (documentId : Option Str)
    (rs : List SearchResult) (llmResp : LLMResponse) (db : DbState)
    (h : rs ≠ []) :
    (query userId queryText documentId rs llmResp db).1.confidence
      = min (((rs.map fun r => r.score).sum) / (rs.length : ℚ)) 1 := by
  obtain ⟨a, t, rfl⟩ := List.exists_cons_of_ne_nil h
  rfl

/-- Witness for C5 at a single result with score `-3/2`: the confidence is
the negative mean itself (no clamp to 0). -/
theorem claim_C5_witness :
    (([c5result] : List SearchResult) ≠ []) ∧
    (query "u".data "q".data none [c5result] ⟨"ans".data, 7⟩
        ⟨[], 0, 0, [], []⟩).1.confidence
      = min ((([c5result].map fun r => r.score).sum) /
          (([c5result] : List SearchResult).length : ℚ)) 1 ∧
    min ((([c5result].map fun r => r.score).sum) /
        (([c5result] : List SearchResult).length : ℚ)) 1 < 0 :=
  ⟨by decide,
   claim_C5 "u".data "q".data none [c5result] ⟨"ans".data, 7⟩ ⟨[], 0, 0, [], []⟩ (by decide),
   by with_unfolding_all decide⟩

/-! ### Citations (C6) -/

theorem getD_map_citeOf (l : List SearchResult) :
    ∀ i, i < l.length →
      (l.map citeOf).getD i dummyCitation = citeOf (l.getD i dummySearchResult) := by
  induction l with
  | nil => intro i hi; simp at hi
  | cons a t ih =>
    intro i hi
    cases i with
    | zero => rfl
    | succ j =>
      rw [List.map_cons, List.getD_cons_succ, List.getD_cons_succ]
      exact ih j (by simpa using hi)

theorem citeOf_content_le (r : SearchResult) : (citeOf r).content.length ≤ 203 := by
  have h3 : ("...".data : Str).length = 3 := rfl
  simp only [citeOf, List.length_append, List.length_take]
  by_cases h2 : 200 < r.content.length
  · rw [if_pos h2, h3]; omega
  · rw [if_neg h2]; simp

/-- C6: the returned citations are exactly one per search result, in the
vector index's order, with source id, optional section label, raw score and
a ≤200-character content preview suffixed with an ellipsis when truncated
(`extractCitations`, pipeline.ts lines 264-271; no re-sorting anywhere in
`query`). -/
theorem claim_C6 (userId queryText : Str) (documentId : Option Str)
    (rs : List SearchResult) (llmResp : LLMResponse) (db : DbState)
    (h : rs ≠ []) :
    ((query userId queryText documentId rs llmResp db).1.citations.length = rs.length) ∧
    ∀ i, i < rs.length →
      ((query userId queryText documentId rs llmResp db).1.citations.getD i dummyCitation
          = { source := (rs.getD i dummySearchResult).metadata.documentId
              sectionLabel := (rs.getD i dummySearchResult).metadata.sectionLabel
              content := (rs.getD i dummySearchResult).content.take 200 ++
                (if 200 < (rs.getD i dummySearchResult).content.length then "...".data else [])
              relevanceScore := (rs.getD i dummySearchResult).score }) ∧
      ((query userId queryText documentId rs llmResp db).1.citations.getD i
          dummyCitation).content.length ≤ 203 := by
  obtain ⟨a, t, rfl⟩ := List.exists_cons_of_ne_nil h
  have hcite : (query userId queryText documentId (a :: t) llmResp db).1.citations
      = (a :: t).map citeOf := rfl
  constructor
  · rw [hcite, List.length_map]
  · intro i hi
    rw [hcite, getD_map_citeOf _ i hi]
    exact ⟨rfl, citeOf_content_le _⟩

/-- Witness for C6 at a single result whose 250-character content is
truncated to 200 plus an ellipsis. -/
theorem claim_C6_witness :
    (([c6result] : List SearchResult) ≠ []) ∧
    ((query "u".data "q".data none [c6result] ⟨"a".data, 5⟩
          ⟨[], 0, 0, [], []⟩).1.citations.getD 0 dummyCitation
        = { source := (([c6result] : List SearchResult).getD 0 dummySearchResult).metadata.documentId
            sectionLabel := (([c6result] : List SearchResult).getD 0 dummySearchResult).metadata.sectionLabel
            content := (([c6result] : List SearchResult).getD 0 dummySearchResult).content.take 200 ++
              (if 200 < (([c6result] : List SearchResult).getD 0 dummySearchResult).content.length
               then "...".data else [])
            relevanceScore := (([c6result] : List SearchResult).getD 0 dummySearchResult).score }) ∧
    ((query "u".data "q".data none [c6result] ⟨"a".data, 5⟩
        ⟨[], 0, 0, [], []⟩).1.citations.getD 0 dummyCitation).content.length ≤ 203 :=
  ⟨by decide,
   ((claim_C6 "u".data "q".data none [c6result] ⟨"a".data, 5⟩
      ⟨[], 0, 0, [], []⟩ (by decide)).2 0 (by decide)).1,
   ((claim_C6 "u".data "q".data none [c6result] ⟨"a".data, 5⟩
      ⟨[], 0, 0, [], []⟩ (by decide)).2 0 (by decide)).2⟩

/-! ### Zero-result query outcome (C7) and its frame effect (C10) -/

/-- C7: zero search results return (not throw) the fixed
no-relevant-information answer with the mandatory disclaimer, confidence
exactly 0 and no citations (pipeline.ts lines 177-186). -/
theorem claim_C7 (userId queryText : Str) (documentId : Option Str)
    (llmResp : LLMResponse) (db : DbState) :
    query userId queryText documentId [] llmResp db
        = (⟨noInfoAnswer, [], 0, 0, 0⟩, db, false) ∧
    containsSeg "couldn't find relevant information".data noInfoAnswer = true ∧
    containsSeg "⚠️ This is for informational purposes only, not legal advice.".data
        noInfoAnswer = true :=
  ⟨rfl, by decide, by decide⟩

/-- C10: on the zero-result path the generation provider is never called
(instrumentation `false`), the metadata store is returned unchanged — in
particular no `queries` row and no `usage_tracking` row is written — and
`tokensUsed` is 0 (pipeline.ts lines 177-186 return before lines 204-238). -/
theorem claim_C10 (userId queryText : Str) (documentId : Option Str)
    (llmResp : LLMResponse) (db : DbState) :
    (query userId queryText documentId [] llmResp db).2.1 = db ∧
    (query userId queryText documentId [] llmResp db).2.2 = false ∧
    (query userId queryText documentId [] llmResp db).1.tokensUsed = 0 ∧
    (query userId queryText documentId [] llmResp db).2.1.queryRows = db.queryRows ∧
    (query userId queryText documentId [] llmResp db).2.1.usageRows = db.usageRows :=
  ⟨rfl, rfl, rfl, rfl, rfl⟩

/-! ### Embedding normalization (C8) -/

set_option maxRecDepth 8000 in
theorem c8_embWords : embWords c8text = c8wordList := by decide

set_option maxRecDepth 30000 in
theorem c8_acc_zero : hashEmbeddingAcc c8text = List.replicate embDimension 0 := by
  simp only [hashEmbeddingAcc, c8_embWords]
  with_unfolding_all decide

theorem sumSq_replicate_zero (n : Nat) : sumSq (List.replicate n (0 : ℚ)) = 0 := by
  induction n with
  | zero => rfl
  | succ k ih =>
    rw [List.replicate_succ]
    simp only [sumSq, List.map_cons, List.sum_cons] at ih ⊢
    rw [ih]
    norm_num

theorem c8_mag_zero : embMagnitudeSq c8text = 0 := by
  rw [embMagnitudeSq, c8_acc_zero, sumSq_replicate_zero]

/-- C8 counterexample: `c8text` has 7 recognized tokens, yet the embedding
accumulator is exactly the zero vector, so its magnitude is 0, the
`magnitude > 0` normalization is skipped (embeddings/index.ts line 66) and
the returned embedding is the zero vector — Euclidean norm 0, not 1 —
refuting "unit norm except when the input contains no recognized tokens". -/
theorem claim_C8_counterexample :
    embWords c8text ≠ [] ∧
    hashEmbeddingAcc c8text = List.replicate embDimension 0 ∧
    embMagnitudeSq c8text = 0 := by
  refine ⟨?_, c8_acc_zero, c8_mag_zero⟩
  rw [c8_embWords]
  decide

theorem foldl_length_invariant {α : Type} (f : List ℚ → α → List ℚ)
    (hf : ∀ v a, (f v a).length = v.length) :
    ∀ (l : List α) (v : List ℚ), (l.foldl f v).length = v.length := by
  intro l
  induction l with
  | nil => intro v; rfl
  | cons a t ih => intro v; rw [List.foldl_cons, ih, hf]

theorem hashEmbeddingAcc_length (t : Str) :
    (hashEmbeddingAcc t).length = embDimension := by
  rw [hashEmbeddingAcc]
  by_cases hw : (embWords t).isEmpty
  · rw [if_pos hw, List.length_replicate]
  · rw [if_neg hw]
    rw [foldl_length_invariant _ (fun v p => by simp [bumpAt]),
      foldl_length_invariant _ (fun v w => foldl_length_invariant _ (fun v h => by simp [bumpAt]) _ _),
      List.length_replicate]

theorem sumSq_eq_sum_getD (v : List ℚ) :
    sumSq v = ∑ i ∈ Finset.range v.length, (v.getD i 0) ^ 2 := by
  induction v with
  | nil => simp [sumSq]
  | cons q t ih =>
    rw [List.length_cons, Finset.sum_range_succ']
    simp only [List.getD_cons_succ, List.getD_cons_zero]
    rw [← ih]
    simp only [sumSq, List.map_cons, List.sum_cons]
    ring

/-- C8 amended: whenever the accumulator magnitude is positive the returned
(normalized) embedding has Euclidean norm exactly 1, and a tokenless input
yields the zero vector (embeddings/index.ts lines 31-33 and 62-70). -/
theorem claim_C8_amended (t : Str) :
    (0 < embMagnitudeSq t →
      ∑ i ∈ Finset.range embDimension,
        (((hashEmbeddingAcc t).getD i 0 : ℝ) / Real.sqrt (embMagnitudeSq t : ℝ)) ^ 2 = 1) ∧
    (embWords t = [] → hashEmbeddingAcc t = List.replicate embDimension 0) := by
  constructor
  · intro hpos
    have hS : (0 : ℝ) < (embMagnitudeSq t : ℝ) := by exact_mod_cast hpos
    have hsum : ((embMagnitudeSq t : ℚ) : ℝ)
        = ∑ i ∈ Finset.range embDimension, ((hashEmbeddingAcc t).getD i 0 : ℝ) ^ 2 := by
      rw [embMagnitudeSq, sumSq_eq_sum_getD, hashEmbeddingAcc_length]
      push_cast
      rfl
    calc ∑ i ∈ Finset.range embDimension,
          (((hashEmbeddingAcc t).getD i 0 : ℝ) / Real.sqrt (embMagnitudeSq t : ℝ)) ^ 2
        = (∑ i ∈ Finset.range embDimension, ((hashEmbeddingAcc t).getD i 0 : ℝ) ^ 2) /
            (Real.sqrt (embMagnitudeSq t : ℝ)) ^ 2 := by
          simp_rw [div_pow]
          rw [← Finset.sum_div]
      _ = (embMagnitudeSq t : ℝ) / (embMagnitudeSq t : ℝ) := by
          rw [← hsum, Real.sq_sqrt hS.le]
      _ = 1 := div_self (ne_of_gt hS)
  · intro hw
    simp [hashEmbeddingAcc, hw]

theorem c8h_words : embWords "hello".data = ["hello".data] := by decide

set_option maxRecDepth 20000 in
theorem c8h_acc : hashEmbeddingAcc "hello".data
    = List.replicate 117 (0 : ℚ) ++ (1 : ℚ) :: (1 : ℚ) :: (1 : ℚ) :: List.replicate 264 0 := by
  simp only [hashEmbeddingAcc, c8h_words]
  with_unfolding_all decide

theorem sumSq_cons (q : ℚ) (l : List ℚ) : sumSq (q :: l) = q * q + sumSq l := by
  simp [sumSq]

theorem sumSq_append (l1 l2 : List ℚ) : sumSq (l1 ++ l2) = sumSq l1 + sumSq l2 := by
  simp [sumSq, List.map_append, List.sum_append]

theorem c8h_mag : embMagnitudeSq "hello".data = 3 := by
  rw [embMagnitudeSq, c8h_acc, sumSq_append, sumSq_replicate_zero, sumSq_cons,
    sumSq_cons, sumSq_cons, sumSq_replicate_zero]
  norm_num

/-- Witness for C8 amended: a one-word input has positive magnitude and
unit-norm normalized embedding; the empty input has no tokens and the zero
vector. -/
theorem claim_C8_witness :
    (0 : ℚ) < embMagnitudeSq "hello".data ∧
    (∑ i ∈ Finset.range embDimension,
      (((hashEmbeddingAcc "hello".data).getD i 0 : ℝ) /
        Real.sqrt (embMagnitudeSq "hello".data : ℝ)) ^ 2 = 1) ∧
    embWords ([] : Str) = [] ∧
    hashEmbeddingAcc ([] : Str) = List.replicate embDimension 0 :=
  ⟨by rw [c8h_mag]; norm_num,
   (claim_C8_amended "hello".data).1 (by rw [c8h_mag]; norm_num),
   by decide,
   (claim_C8_amended []).2 (by decide)⟩
